import Mathlib

/-!
Coal allocation by hill climbing: a shallow embedding

Embedding of `l2/p1/problem_solving_by_hill_climbing_search.c`.

* A C `int` is an `Int`.  The one place where the source adds values of
  unbounded size, the running total of `cost_heuristic` (line 163), is a
  32-bit addition: every addition there is followed by `wrap_int`.  Elsewhere
  `int` values are compared, or changed by 1 and used as array indices.
* A C array is a `List`; an index is an `Int`.  Reading or writing outside
  the array (negative index included) has no defined behaviour in C and is
  the error branch `none` of the embedding.
* A pointer that may be `NULL` (`bid_data[i]`, `bid_data_dimensions[i]`) is an
  `Option`; dereferencing `NULL` is the error branch as well.
* A `for` loop whose bound does not change while it runs is a structural
  recursion on the number of iterations that remain, carrying the loop index.
* The C macros `true` and `false` are the integers `1` and `0`.
-/

namespace HillClimb

/-- The C macro `no_bid`. -/
def no_bid : Int := -1

/-- The `struct State` of the source. -/
structure State where
  num_of_companies : Int
  num_of_coal_blocks : Int
  selected_bids_from_companies : List Int
  allocated_coal_blocks : List Int
deriving DecidableEq, Repr

/-- The `struct InputData` of the source; `none` is the `NULL` pointer. -/
structure InputData where
  bid_data : List (Option (List (List Int)))
  bid_data_dimensions : List (Option (List Int))
  bid_data_dimensions_dimensions : List Int
  num_of_coal_blocks : Int
  num_of_companies : Int
deriving DecidableEq, Repr

/-- Array read `a[i]`; `none` when `i` is outside the array. -/
def rd {α : Type} (a : List α) (i : Int) : Option α :=
  if i < 0 then none else a[i.toNat]?

/-- Array write `a[i] = v`; `none` when `i` is outside the array. -/
def wr {α : Type} (a : List α) (i : Int) (v : α) : Option (List α) :=
  if 0 ≤ i ∧ i < (a.length : Int) then some (a.set i.toNat v) else none

/-- The read `input_data->bid_data[i][j][m]`. -/
def bid_entry (input_data : InputData) (i j m : Int) : Option Int := do
  let bids ← (rd input_data.bid_data i).join
  let bid ← rd bids j
  rd bid m

/-- The read `input_data->bid_data_dimensions[i][j]`. -/
def bid_dim (input_data : InputData) (i j : Int) : Option Int := do
  let dims ← (rd input_data.bid_data_dimensions i).join
  rd dims j

/-- The element-by-element copy loops of `create_copy_state`: the fresh array
    receives `src[i]`, `src[i+1]`, ... for the remaining iterations. -/
def copy_loop (src : List Int) : Nat → Int → Option (List Int)
  | 0, _ => some []
  | k + 1, i => do
      let v ← rd src i
      let rest ← copy_loop src k (i + 1)
      some (v :: rest)

/-- The function `create_copy_state` (lines 83-102). -/
def create_copy_state (state : State) : Option State := do
  let allocated ← copy_loop state.allocated_coal_blocks state.num_of_coal_blocks.toNat 0
  let selected ← copy_loop state.selected_bids_from_companies state.num_of_companies.toNat 0
  some { num_of_companies := state.num_of_companies
         num_of_coal_blocks := state.num_of_coal_blocks
         selected_bids_from_companies := selected
         allocated_coal_blocks := allocated }

/-- The least value of a 32-bit `int`. -/
def int_min : Int := -2147483648

/-- The greatest value of a 32-bit `int`. -/
def int_max : Int := 2147483647

/-- The value a 32-bit `int` holds after an addition whose exact result is
    `x`: `x` reduced modulo 2^32 into `int_min..int_max`. -/
def wrap_int (x : Int) : Int := (x + 2147483648) % 4294967296 - 2147483648

/-- Loop of `cost_heuristic` (lines 159-165): `k` iterations remain, the loop
    index is `i`, the running total is the `int` `cost`. -/
def cost_heuristic_loop (state : State) (input_data : InputData) :
    Nat → Int → Int → Option Int
  | 0, _, cost => some cost
  | k + 1, i, cost => do
      let sel ← rd state.selected_bids_from_companies i
      if sel ≠ no_bid then
        let v ← bid_entry input_data i sel 0
        cost_heuristic_loop state input_data k (i + 1) (wrap_int (cost + v))
      else
        cost_heuristic_loop state input_data k (i + 1) cost

/-- The function `cost_heuristic` (lines 155-168). -/
def cost_heuristic (state : State) (input_data : InputData) : Option Int :=
  cost_heuristic_loop state input_data state.num_of_companies.toNat 0 0

/-- Loop of `check_bid_collision` (lines 172-178): `k` iterations remain at
    loop index `i`.  The occupancy array is threaded through and returned
    next to the result, so that what the function does to it is visible. -/
def check_bid_collision_loop (bid : List Int) :
    Nat → Int → List Int → Option (Int × List Int)
  | 0, _, allocated_coal_blocks => some (1, allocated_coal_blocks)
  | k + 1, i, allocated_coal_blocks => do
      let u ← rd bid (i + 1)
      let a ← rd allocated_coal_blocks (u - 1)
      if a = 1 then some (0, allocated_coal_blocks)
      else check_bid_collision_loop bid k (i + 1) allocated_coal_blocks

/-- The function `check_bid_collision` (lines 170-181): the returned `int`
    and the occupancy array as the call leaves it. -/
def check_bid_collision (allocated_coal_blocks : List Int) (bid : List Int)
    (bid_length : Int) : Option (Int × List Int) :=
  check_bid_collision_loop bid bid_length.toNat 0 allocated_coal_blocks

/-- The three loops of the source that store a constant `v` at the blocks of
    bid `j` of company `i`, entries `m`, `m+1`, ... (lines 247-250 with
    `false`, lines 270-273 and 323-326 with `true`). -/
def mark_loop (input_data : InputData) (i j : Int) (v : Int) :
    Nat → Int → List Int → Option (List Int)
  | 0, _, allocated => some allocated
  | k + 1, m, allocated => do
      let u ← bid_entry input_data i j m
      let allocated1 ← wr allocated (u - 1) v
      mark_loop input_data i j v k (m + 1) allocated1

/-- The loop of lines 256-263 of `generate_successor`; the result is `flag`. -/
def validity_loop (input_data : InputData) (i j : Int) (allocated : List Int) :
    Nat → Int → Option Int
  | 0, _ => some 1
  | k + 1, m => do
      let u ← bid_entry input_data i j m
      let a ← rd allocated (u - 1)
      if a = 1 then some 0 else validity_loop input_data i j allocated k (m + 1)

/-- Lines 241-274 of `generate_successor`: the trial state for company `i` and
    candidate `j`.  `none` is an out-of-range access, `some none` a trial
    whose `flag` ended `false`, `some (some s)` the trial state that is scored. -/
def trial (old_state : State) (input_data : InputData) (i j : Int) :
    Option (Option State) := do
  let new_state ← create_copy_state old_state
  let cur ← rd new_state.selected_bids_from_companies i
  let bound ← bid_dim input_data i cur
  let allocated1 ←
    mark_loop input_data i cur 0 (bound - 1).toNat 1 new_state.allocated_coal_blocks
  let selected1 ← wr new_state.selected_bids_from_companies i j
  let flag ←
    if j ≠ no_bid then do
      let b ← bid_dim input_data i j
      validity_loop input_data i j allocated1 b.toNat 0
    else some 1
  if flag = 1 then do
    let allocated2 ←
      if j ≠ no_bid then do
        let b ← bid_dim input_data i j
        mark_loop input_data i j 1 (b - 1).toNat 1 allocated1
      else some allocated1
    some (some { new_state with
                  selected_bids_from_companies := selected1
                  allocated_coal_blocks := allocated2 })
  else some none

/-- Inner loop of `generate_successor` (lines 237-292): `k` iterations remain
    at candidate `j`; the pair is `(successor_state, h_max)`. -/
def generate_successor_inner (old_state : State) (input_data : InputData) (i : Int) :
    Nat → Int → State × Int → Option (State × Int)
  | 0, _, acc => some acc
  | k + 1, j, acc => do
      let cur ← rd old_state.selected_bids_from_companies i
      if j ≠ cur then
        match ← trial old_state input_data i j with
        | none => generate_successor_inner old_state input_data i k (j + 1) acc
        | some new_state => do
            let h ← cost_heuristic new_state input_data
            if h > acc.2 then
              let c ← create_copy_state new_state
              generate_successor_inner old_state input_data i k (j + 1) (c, h)
            else generate_successor_inner old_state input_data i k (j + 1) acc
      else generate_successor_inner old_state input_data i k (j + 1) acc

/-- Outer loop of `generate_successor` (lines 235-293). -/
def generate_successor_outer (old_state : State) (input_data : InputData) :
    Nat → Int → State × Int → Option (State × Int)
  | 0, _, acc => some acc
  | k + 1, i, acc => do
      let n ← rd input_data.bid_data_dimensions_dimensions i
      let acc1 ← generate_successor_inner old_state input_data i (n + 1).toNat (-1) acc
      generate_successor_outer old_state input_data k (i + 1) acc1

/-- The function `generate_successor` (lines 227-300).  The call of
    `display_state` only prints and is left out. -/
def generate_successor (old_state : State) (input_data : InputData) : Option State := do
  let successor_state ← create_copy_state old_state
  let r ← generate_successor_outer old_state input_data
            input_data.num_of_companies.toNat 0 (successor_state, 0)
  some r.1

/-- Loop of `find_initial_state` (lines 315-337); the pair is
    `(selected_bids_from_companies, allocated_coal_blocks)`. -/
def find_initial_state_loop (input_data : InputData) :
    Nat → Int → List Int × List Int → Option (List Int × List Int)
  | 0, _, acc => some acc
  | k + 1, i, acc => do
      let p ← rd input_data.bid_data i
      match p with
      | some bids => do
          let bid ← rd bids 0
          let len ← bid_dim input_data i 0
          let r ← check_bid_collision acc.2 bid len
          if r.1 ≠ 0 then do
            let selected1 ← wr acc.1 i 0
            let allocated1 ← mark_loop input_data i 0 1 (len - 1).toNat 1 r.2
            find_initial_state_loop input_data k (i + 1) (selected1, allocated1)
          else do
            let selected1 ← wr acc.1 i no_bid
            find_initial_state_loop input_data k (i + 1) (selected1, r.2)
      | none => do
          let selected1 ← wr acc.1 i no_bid
          find_initial_state_loop input_data k (i + 1) (selected1, acc.2)

/-- The function `find_initial_state` (lines 302-340).  The two arrays come
    from `malloc`; the occupancy array is then filled with `false`, and every
    entry of the selection array is written by the loop before it is read. -/
def find_initial_state (input_data : InputData) : Option State := do
  let r ← find_initial_state_loop input_data input_data.num_of_companies.toNat 0
            (List.replicate input_data.num_of_companies.toNat 0,
             List.replicate input_data.num_of_coal_blocks.toNat 0)
  some { num_of_companies := input_data.num_of_companies
         num_of_coal_blocks := input_data.num_of_coal_blocks
         selected_bids_from_companies := r.1
         allocated_coal_blocks := r.2 }

/-- Inner loop of `formulate_goal` (lines 360-367); the pair is
    `(max, max_index)`. -/
def formulate_goal_inner (input_data : InputData) (i : Int) :
    Nat → Int → Int × Int → Option (Int × Int)
  | 0, _, acc => some acc
  | k + 1, j, acc => do
      let v ← bid_entry input_data i j 0
      if v > acc.1 then formulate_goal_inner input_data i k (j + 1) (v, j)
      else formulate_goal_inner input_data i k (j + 1) acc

/-- Outer loop of `formulate_goal` (lines 355-376). -/
def formulate_goal_loop (input_data : InputData) :
    Nat → Int → List Int → Option (List Int)
  | 0, _, selected => some selected
  | k + 1, i, selected => do
      let n ← rd input_data.bid_data_dimensions_dimensions i
      let r ← formulate_goal_inner input_data i n.toNat 0 (0, 0)
      let selected1 ← wr selected i (if n ≠ 0 then r.2 else no_bid)
      formulate_goal_loop input_data k (i + 1) selected1

/-- The function `formulate_goal` (lines 342-379). -/
def formulate_goal (input_data : InputData) : Option State := do
  let selected ← formulate_goal_loop input_data input_data.num_of_companies.toNat 0
                   (List.replicate input_data.num_of_companies.toNat 0)
  some { num_of_companies := input_data.num_of_companies
         num_of_coal_blocks := input_data.num_of_coal_blocks
         selected_bids_from_companies := selected
         allocated_coal_blocks := List.replicate input_data.num_of_coal_blocks.toNat 1 }

/-- A selection `sel` of company `i` is `no_bid` or the index of one of the
    company's bid records (a record has its value at entry 0). -/
def valid_selection (input_data : InputData) (i : Nat) (sel : Int) : Prop :=
  sel = no_bid ∨ (bid_entry input_data i sel 0).isSome = true

instance (input_data : InputData) (i : Nat) (sel : Int) :
    Decidable (valid_selection input_data i sel) := by
  unfold valid_selection; infer_instance

/-- Every company of the state has a selection, and each is valid. -/
def selections_valid (state : State) (input_data : InputData) : Prop :=
  state.num_of_companies = state.selected_bids_from_companies.length ∧
  ∀ i ∈ List.range state.selected_bids_from_companies.length,
    valid_selection input_data i (state.selected_bids_from_companies.getD i no_bid)

instance (state : State) (input_data : InputData) :
    Decidable (selections_valid state input_data) := by
  unfold selections_valid; infer_instance

/-- What company `i` adds to the score: nothing under `no_bid`, otherwise the
    value (entry 0) of its selected bid. -/
def selected_value (state : State) (input_data : InputData) (i : Nat) : Int :=
  let sel := state.selected_bids_from_companies.getD i no_bid
  if sel = no_bid then 0 else (bid_entry input_data i sel 0).getD 0

/-- Unit `u` (identifiers start at 1) is marked allocated in the occupancy
    array: its entry holds `true`. -/
def unit_allocated (allocated_coal_blocks : List Int) (u : Int) : Prop :=
  rd allocated_coal_blocks (u - 1) = some 1

instance (allocated_coal_blocks : List Int) (u : Int) :
    Decidable (unit_allocated allocated_coal_blocks u) := by
  unfold unit_allocated; infer_instance

/-- The bid records of company `i`: the array `bid_data[i]`, empty when the
    pointer is `NULL` or `i` is not a company. -/
def bids_of (input_data : InputData) (i : Nat) : List (List Int) :=
  (input_data.bid_data.getD i none).getD []

/-- The value of a bid record, its entry 0. -/
def bid_value (bid : List Int) : Int := bid.headD 0

/-- The unit identifiers of a bid record, its entries from 1 on. -/
def bid_units (bid : List Int) : List Int := bid.tail

/-- Company `i` is laid out the way `take_input` (lines 434-464) builds it:
    the recorded number of bids is the number of bid records, `bid_data[i]` and
    `bid_data_dimensions[i]` are `NULL` exactly when there is no bid, every
    bid record has its value entry, and the recorded dimension of a record is
    its length (number of units + 1). -/
def company_shape (input_data : InputData) (i : Nat) : Prop :=
  input_data.bid_data_dimensions_dimensions.getD i 0 = ((bids_of input_data i).length : Int) ∧
  (input_data.bid_data.getD i none).isSome = decide (bids_of input_data i ≠ []) ∧
  input_data.bid_data_dimensions.getD i none =
    (if bids_of input_data i = [] then none
     else some ((bids_of input_data i).map (fun b => (b.length : Int)))) ∧
  ∀ b ∈ bids_of input_data i, b ≠ []

instance (input_data : InputData) (i : Nat) : Decidable (company_shape input_data i) := by
  unfold company_shape; infer_instance

/-- The catalog is laid out the way `take_input` builds it: the three arrays
    have one entry per company and every company has `company_shape`. -/
def catalog_shape (input_data : InputData) : Prop :=
  input_data.num_of_companies = (input_data.bid_data.length : Int) ∧
  input_data.bid_data_dimensions.length = input_data.bid_data.length ∧
  input_data.bid_data_dimensions_dimensions.length = input_data.bid_data.length ∧
  0 ≤ input_data.num_of_coal_blocks ∧
  ∀ i ∈ List.range input_data.bid_data.length, company_shape input_data i

instance (input_data : InputData) : Decidable (catalog_shape input_data) := by
  unfold catalog_shape; infer_instance

/-- Every bid value of the catalog is non-negative. -/
def values_nonneg (input_data : InputData) : Prop :=
  ∀ i ∈ List.range input_data.bid_data.length,
    ∀ b ∈ bids_of input_data i, 0 ≤ bid_value b

instance (input_data : InputData) : Decidable (values_nonneg input_data) := by
  unfold values_nonneg; infer_instance

/-- Every unit identifier of the catalog lies in `1..num_of_coal_blocks`. -/
def units_in_range (input_data : InputData) : Prop :=
  ∀ i ∈ List.range input_data.bid_data.length,
    ∀ b ∈ bids_of input_data i, ∀ u ∈ bid_units b,
      1 ≤ u ∧ u ≤ input_data.num_of_coal_blocks

instance (input_data : InputData) : Decidable (units_in_range input_data) := by
  unfold units_in_range; infer_instance

/-- A well-formed catalog: laid out as `take_input` builds it, unit identifiers
    in `1..num_of_coal_blocks`, bid values non-negative. -/
def well_formed_catalog (input_data : InputData) : Prop :=
  catalog_shape input_data ∧ units_in_range input_data ∧ values_nonneg input_data

instance (input_data : InputData) : Decidable (well_formed_catalog input_data) := by
  unfold well_formed_catalog; infer_instance

/-- Invariant of the inner loop of `formulate_goal` before candidate `j`:
    `mx` bounds the values seen, everything before `mi` is strictly below
    `mx`, and unless nothing was seen yet `mi` is a seen index of value `mx`. -/
def goal_inv (val : Nat → Int) (j : Nat) (mx mi : Int) : Prop :=
  (∀ t < j, val t ≤ mx) ∧
  ∃ m : Nat, mi = (m : Int) ∧ (∀ t < m, val t < mx) ∧
    ((j = 0 ∧ m = 0 ∧ mx = 0) ∨ (m < j ∧ val m = mx))

/-- What the goal constructor is to select for company `i`: `no_bid` when the
    company has no bid, otherwise the lowest index among the bids of maximum
    value. -/
def goal_selection_ok (input_data : InputData) (i : Nat) (sel : Int) : Prop :=
  if bids_of input_data i = [] then sel = no_bid
  else
    0 ≤ sel ∧ sel.toNat < (bids_of input_data i).length ∧
    (∀ t ∈ List.range (bids_of input_data i).length,
      bid_value ((bids_of input_data i).getD t [])
        ≤ bid_value ((bids_of input_data i).getD sel.toNat [])) ∧
    (∀ t ∈ List.range sel.toNat,
      bid_value ((bids_of input_data i).getD t [])
        < bid_value ((bids_of input_data i).getD sel.toNat []))

instance (input_data : InputData) (i : Nat) (sel : Int) :
    Decidable (goal_selection_ok input_data i sel) := by
  unfold goal_selection_ok; infer_instance

/-- The units held by company `i` in a state: those of its selected bid, none
    under `no_bid`. -/
def selected_units (state : State) (input_data : InputData) (i : Nat) : List Int :=
  let sel := state.selected_bids_from_companies.getD i no_bid
  if sel < 0 then [] else bid_units ((bids_of input_data i).getD sel.toNat [])

/-- A well-formed allocation for a catalog: the recorded sizes are those of the
    catalog and of the two arrays, and every selection is `no_bid` or a bid
    index of its company. -/
def well_formed_allocation (state : State) (input_data : InputData) : Prop :=
  state.num_of_companies = input_data.num_of_companies ∧
  state.num_of_coal_blocks = input_data.num_of_coal_blocks ∧
  (state.selected_bids_from_companies.length : Int) = input_data.num_of_companies ∧
  (state.allocated_coal_blocks.length : Int) = input_data.num_of_coal_blocks ∧
  ∀ i ∈ List.range state.selected_bids_from_companies.length,
    state.selected_bids_from_companies.getD i no_bid = no_bid ∨
    (0 ≤ state.selected_bids_from_companies.getD i no_bid ∧
     state.selected_bids_from_companies.getD i no_bid
       < ((bids_of input_data i).length : Int))

instance (state : State) (input_data : InputData) :
    Decidable (well_formed_allocation state input_data) := by
  unfold well_formed_allocation; infer_instance

/-- No two distinct companies' selected bids share a unit identifier. -/
def conflict_free (state : State) (input_data : InputData) : Prop :=
  ∀ i ∈ List.range state.selected_bids_from_companies.length,
    ∀ k ∈ List.range state.selected_bids_from_companies.length, i ≠ k →
      ∀ u ∈ selected_units state input_data i, u ∉ selected_units state input_data k

instance (state : State) (input_data : InputData) :
    Decidable (conflict_free state input_data) := by
  unfold conflict_free; infer_instance

/-- A unit is marked allocated exactly when it belongs to the selected bid of
    some company; every other unit is marked `false`. -/
def occupancy_consistent (state : State) (input_data : InputData) : Prop :=
  ∀ b ∈ List.range state.allocated_coal_blocks.length,
    (state.allocated_coal_blocks.getD b 0 = 1 ∨ state.allocated_coal_blocks.getD b 0 = 0) ∧
    (state.allocated_coal_blocks.getD b 0 = 1 ↔
      ∃ i ∈ List.range state.selected_bids_from_companies.length,
        ((b : Int) + 1) ∈ selected_units state input_data i)

instance (state : State) (input_data : InputData) :
    Decidable (occupancy_consistent state input_data) := by
  unfold occupancy_consistent; infer_instance

/-- Catalog of Scenario A: 1 unit; company 1 bids 5 for unit 1, company 2 bids
    3 for unit 1. -/
def scenario_A_catalog : InputData :=
  { bid_data := [some [[5, 1]], some [[3, 1]]]
    bid_data_dimensions := [some [2], some [2]]
    bid_data_dimensions_dimensions := [1, 1]
    num_of_coal_blocks := 1
    num_of_companies := 2 }

/-- The allocation of Scenario A in which company 1 holds its bid and company 2
    holds none. -/
def scenario_A_state : State :=
  { num_of_companies := 2
    num_of_coal_blocks := 1
    selected_bids_from_companies := [0, -1]
    allocated_coal_blocks := [1] }

/-- Catalog of Scenario B: 2 units; company 1 bids 4 for unit 1, company 2 bids
    6 for unit 2. -/
def scenario_B_catalog : InputData :=
  { bid_data := [some [[4, 1]], some [[6, 2]]]
    bid_data_dimensions := [some [2], some [2]]
    bid_data_dimensions_dimensions := [1, 1]
    num_of_coal_blocks := 2
    num_of_companies := 2 }

/-- The allocation of Scenario B in which both companies hold their bid. -/
def scenario_B_state : State :=
  { num_of_companies := 2
    num_of_coal_blocks := 2
    selected_bids_from_companies := [0, 0]
    allocated_coal_blocks := [1, 1] }

/-- A catalog with a single company and a single bid: 5 for unit 1 of 1. -/
def single_bid_catalog : InputData :=
  { bid_data := [some [[5, 1]]]
    bid_data_dimensions := [some [2]]
    bid_data_dimensions_dimensions := [1]
    num_of_coal_blocks := 1
    num_of_companies := 1 }

/-- The allocation over `single_bid_catalog` in which the company holds no bid. -/
def single_bid_empty_state : State :=
  { num_of_companies := 1
    num_of_coal_blocks := 1
    selected_bids_from_companies := [-1]
    allocated_coal_blocks := [0] }

/-- A catalog over 2 units: company 1 bids 5 for units 1 and 2, company 2 bids
    3 for unit 2. -/
def overlap_catalog : InputData :=
  { bid_data := [some [[5, 1, 2]], some [[3, 2]]]
    bid_data_dimensions := [some [3], some [2]]
    bid_data_dimensions_dimensions := [1, 1]
    num_of_coal_blocks := 2
    num_of_companies := 2 }

/-- The allocation over `overlap_catalog` in which company 1 holds its bid and
    company 2 holds none. -/
def overlap_state : State :=
  { num_of_companies := 2
    num_of_coal_blocks := 2
    selected_bids_from_companies := [0, -1]
    allocated_coal_blocks := [1, 1] }

/-- A catalog over 2 units whose bid values are small: company 1 bids 1 for
    unit 1 or 2 for unit 1, company 2 bids 2 for unit 2. -/
def small_value_catalog : InputData :=
  { bid_data := [some [[1, 1], [2, 1]], some [[2, 2]]]
    bid_data_dimensions := [some [2, 2], some [2]]
    bid_data_dimensions_dimensions := [2, 1]
    num_of_coal_blocks := 2
    num_of_companies := 2 }

/-- The allocation over `small_value_catalog` in which both companies hold
    their first bid. -/
def small_value_state : State :=
  { num_of_companies := 2
    num_of_coal_blocks := 2
    selected_bids_from_companies := [0, 0]
    allocated_coal_blocks := [1, 1] }

/-- The units of candidate `j` of company `i`: none for `no_bid`. -/
def candidate_units (input_data : InputData) (i : Nat) (j : Int) : List Int :=
  if j < 0 then [] else bid_units ((bids_of input_data i).getD j.toNat [])

/-- The candidates of a company with `cnt` bids in enumeration order:
    `no_bid`, then the bid indices 0, 1, ... -/
def candidates (cnt : Nat) : List Int :=
  no_bid :: (List.range' 0 cnt).map (fun (t : Nat) => (t : Int))

/-- The moves of company `i` among the candidates `cands`, in their order:
    the candidates other than the current selection of the company. -/
def moves_among (state : State) (i : Nat) (cands : List Int) : List (Nat × Int) :=
  (cands.filter
    (fun j => decide (j ≠ state.selected_bids_from_companies.getD i no_bid))).map
    (fun j => (i, j))

/-- The moves of company `i` in enumeration order. -/
def moves_of_company (state : State) (input_data : InputData) (i : Nat) : List (Nat × Int) :=
  moves_among state i (candidates (bids_of input_data i).length)

/-- The moves of the neighbourhood in enumeration order: companies in catalog
    order, for each company its candidates in ascending order. -/
def moves (state : State) (input_data : InputData) : List (Nat × Int) :=
  (List.range' 0 input_data.bid_data.length).flatMap (moves_of_company state input_data)

/-- The trial state of a move together with its score, when the move passes
    the validity test of the generator. -/
def scored_trial (state : State) (input_data : InputData) (p : Nat × Int) :
    Option (State × Int) :=
  match trial state input_data (p.1 : Int) p.2 with
  | some (some new_state) => (cost_heuristic new_state input_data).map (fun h => (new_state, h))
  | _ => none

/-- The kept trials of the neighbourhood with their scores, in enumeration
    order. -/
def kept_trials (state : State) (input_data : InputData) : List (State × Int) :=
  (moves state input_data).filterMap (scored_trial state input_data)

/-- Starting from `start` with threshold `h0`, `r` with score `h` is the best
    move of the list: either no entry scores above `h0` and `r` is `start`, or
    `r` is the first entry of the list that attains the maximum score, which
    is above `h0`. -/
def first_best (l : List (State × Int)) (start : State) (h0 : Int) (r : State) (h : Int) :
    Prop :=
  ((∀ q ∈ l, q.2 ≤ h0) ∧ r = start ∧ h = h0) ∨
  (∃ idx : Nat, l[idx]? = some (r, h) ∧ h0 < h ∧ (∀ q ∈ l, q.2 ≤ h) ∧
    ∀ t < idx, ∀ q, l[t]? = some q → q.2 < h)

/-- The update of `(successor_state, h_max)` by one scored trial (lines
    277-282). -/
def improve (acc : State × Int) (p : State × Int) : State × Int :=
  if p.2 > acc.2 then p else acc

/-- An allocation of the catalog in which each selection is `no_bid` or a bid
    index of its company: one selection per company of the catalog. -/
def selections_in_range (state : State) (input_data : InputData) : Prop :=
  state.num_of_companies = input_data.num_of_companies ∧
  (state.selected_bids_from_companies.length : Int) = input_data.num_of_companies ∧
  ∀ i ∈ List.range state.selected_bids_from_companies.length,
    state.selected_bids_from_companies.getD i no_bid = no_bid ∨
    (0 ≤ state.selected_bids_from_companies.getD i no_bid ∧
     state.selected_bids_from_companies.getD i no_bid
       < ((bids_of input_data i).length : Int))

instance (state : State) (input_data : InputData) :
    Decidable (selections_in_range state input_data) := by
  unfold selections_in_range; infer_instance

/-- First loop of `is_goal_state` (lines 383-389): `k` iterations remain at
    unit index `i`. -/
def is_goal_state_loop (state goal_state : State) : Nat → Int → Option Int
  | 0, _ => some 1
  | k + 1, i => do
      let a ← rd state.allocated_coal_blocks i
      let b ← rd goal_state.allocated_coal_blocks i
      if a ≠ b then some 0 else is_goal_state_loop state goal_state k (i + 1)

/-- The function `is_goal_state` (lines 381-397).  The second loop (lines
    391-394) has an empty body. -/
def is_goal_state (state goal_state : State) : Option Int :=
  is_goal_state_loop state goal_state state.num_of_coal_blocks.toNat 0

/-- The function `swap` (lines 183-189) applied to the cells `a + x` and
    `a + y` of one array. -/
def swap (a : List Int) (x y : Int) : Option (List Int) := do
  let temp ← rd a x
  let vy ← rd a y
  let a1 ← wr a x vy
  wr a1 y temp

/-- Loop of `permute` (lines 198-203): `k` iterations remain at loop index
    `i`; `call` is the recursive call `permute(a, l+1, r)`.  The state is the
    array and the lines printed so far. -/
def permute_loop (call : List Int → List Int → Option (List Int × List Int)) (l : Int) :
    Nat → Int → List Int → List Int → Option (List Int × List Int)
  | 0, _, a, out => some (a, out)
  | k + 1, i, a, out => do
      let a1 ← swap a l i
      let r ← call a1 out
      let a2 ← swap r.1 l i
      permute_loop call l k (i + 1) a2 r.2

/-- The function `permute` (lines 191-205) with a bound `fuel` on the depth
    of the recursion; `none` when the bound is used up or an access is out of
    range.  Each `printf("%d\n",*a)` appends the printed `a[0]` as one line. -/
def permute : Nat → List Int → Int → Int → List Int → Option (List Int × List Int)
  | 0, _, _, _, _ => none
  | fuel + 1, a, l, r, out =>
      if l = r then do
        let v ← rd a 0
        some (a, out ++ [v])
      else
        permute_loop (fun a1 out1 => permute fuel a1 (l + 1) r out1) l
          (r - l + 1).toNat l a out

/-- The state `r` is the state `s` after a single move: the selection of one
    company `i` is replaced by a candidate `j` of that company other than its
    selection in `s`, the other selections and the two recorded sizes are
    those of `s`. -/
def single_move (input_data : InputData) (s r : State) : Prop :=
  ∃ i : Nat, ∃ j : Int, i < s.selected_bids_from_companies.length ∧
    (j = no_bid ∨ (0 ≤ j ∧ j < ((bids_of input_data i).length : Int))) ∧
    j ≠ s.selected_bids_from_companies.getD i no_bid ∧
    r.selected_bids_from_companies = s.selected_bids_from_companies.set i j ∧
    r.num_of_companies = s.num_of_companies ∧
    r.num_of_coal_blocks = s.num_of_coal_blocks

/-- A catalog over 1 unit: company 1 bids 5 for unit 1, company 2 has no bid
    (the zero-bid company of Scenario C). -/
def zero_bid_catalog : InputData :=
  { bid_data := [some [[5, 1]], none]
    bid_data_dimensions := [some [2], none]
    bid_data_dimensions_dimensions := [1, 0]
    num_of_coal_blocks := 1
    num_of_companies := 2 }

/-- The allocation over `zero_bid_catalog` in which company 1 holds its bid. -/
def zero_bid_state : State :=
  { num_of_companies := 2
    num_of_coal_blocks := 1
    selected_bids_from_companies := [0, -1]
    allocated_coal_blocks := [1] }

/-- The allocation over `zero_bid_catalog` in which no company holds a bid. -/
def zero_bid_empty_state : State :=
  { num_of_companies := 2
    num_of_coal_blocks := 1
    selected_bids_from_companies := [-1, -1]
    allocated_coal_blocks := [0] }

/-- A catalog over 2 units with a single company and the single bid 7 for
    units 1 and 2. -/
def two_unit_catalog : InputData :=
  { bid_data := [some [[7, 1, 2]]]
    bid_data_dimensions := [some [3]]
    bid_data_dimensions_dimensions := [1]
    num_of_coal_blocks := 2
    num_of_companies := 1 }

/-- A catalog over 1 unit with a single company that bids 5 or 7 for unit 1. -/
def two_bid_catalog : InputData :=
  { bid_data := [some [[5, 1], [7, 1]]]
    bid_data_dimensions := [some [2, 2]]
    bid_data_dimensions_dimensions := [2]
    num_of_coal_blocks := 1
    num_of_companies := 1 }

/-- The allocation over `two_bid_catalog` in which the company holds its first
    bid. -/
def two_bid_state : State :=
  { num_of_companies := 1
    num_of_coal_blocks := 1
    selected_bids_from_companies := [0]
    allocated_coal_blocks := [1] }

/-- A catalog over 2 units with bid values at the top of the `int` range:
    company 1 bids 2147483647 for unit 1, company 2 bids 1 for unit 2. -/
def large_value_catalog : InputData :=
  { bid_data := [some [[2147483647, 1]], some [[1, 2]]]
    bid_data_dimensions := [some [2], some [2]]
    bid_data_dimensions_dimensions := [1, 1]
    num_of_coal_blocks := 2
    num_of_companies := 2 }

/-- The allocation over `large_value_catalog` in which both companies hold
    their bid. -/
def large_value_state : State :=
  { num_of_companies := 2
    num_of_coal_blocks := 2
    selected_bids_from_companies := [0, 0]
    allocated_coal_blocks := [1, 1] }

/-- The allocation over `large_value_catalog` in which only company 1 holds
    its bid. -/
def large_value_first_state : State :=
  { num_of_companies := 2
    num_of_coal_blocks := 2
    selected_bids_from_companies := [0, -1]
    allocated_coal_blocks := [1, 0] }

/-- The greatest bid value of company `i`, 0 when it has no bid. -/
def max_bid_value (input_data : InputData) (i : Nat) : Int :=
  ((bids_of input_data i).map bid_value).foldr max 0

/-- The sum over the companies of their greatest bid value: the exact score
    of the goal bound. -/
def goal_bound (input_data : InputData) : Int :=
  ((List.range input_data.bid_data.length).map (max_bid_value input_data)).sum

/-- The occupancy of `r` is that of `s` after company `i` moved to candidate
    `j`: the units of the candidate are marked, the other units of the prior
    bid of the company are released, every other unit is as in `s`. -/
def occupancy_after_move (input_data : InputData) (s r : State) (i : Nat) (j : Int) : Prop :=
  ∀ b ∈ List.range s.allocated_coal_blocks.length,
    r.allocated_coal_blocks.getD b 0
      = if ((b : Int) + 1) ∈ candidate_units input_data i j then 1
        else if ((b : Int) + 1) ∈ selected_units s input_data i then 0
        else s.allocated_coal_blocks.getD b 0

instance (input_data : InputData) (s r : State) (i : Nat) (j : Int) :
    Decidable (occupancy_after_move input_data s r i j) := by
  unfold occupancy_after_move; infer_instance

/-- The state after `k` successive calls of `generate_successor`, as the
    driver loop of `main` (lines 534-545) makes them. -/
def successor_steps (input_data : InputData) : Nat → State → Option State
  | 0, state => some state
  | k + 1, state => do
      let next ← generate_successor state input_data
      successor_steps input_data k next

/-- A catalog over 1 unit with two companies, neither of which has a bid. -/
def empty_bids_catalog : InputData :=
  { bid_data := [none, none]
    bid_data_dimensions := [none, none]
    bid_data_dimensions_dimensions := [0, 0]
    num_of_coal_blocks := 1
    num_of_companies := 2 }

/-- The allocation over `empty_bids_catalog` in which no company holds a bid. -/
def empty_bids_state : State :=
  { num_of_companies := 2
    num_of_coal_blocks := 1
    selected_bids_from_companies := [-1, -1]
    allocated_coal_blocks := [0] }

/-! ## Theorems -/

/-! ### Array reads and writes -/

theorem rd_natCast {α : Type} (a : List α) (i : Nat) : rd a (i : Int) = a[i]? := by
  unfold rd
  have h : ¬ ((i : Int) < 0) := by omega
  simp [h]

theorem rd_getD {α : Type} (a : List α) (i : Nat) (dflt : α) (h : i < a.length) :
    rd a (i : Int) = some (a.getD i dflt) := by
  rw [rd_natCast]
  simp [List.getD, List.getElem?_eq_getElem h]

theorem rd_isSome_of_bounds {α : Type} (a : List α) (i : Int) (h0 : 0 ≤ i)
    (h1 : i < (a.length : Int)) : ∃ v, rd a i = some v := by
  obtain ⟨n, rfl⟩ := Int.eq_ofNat_of_zero_le h0
  have hn : n < a.length := by exact_mod_cast h1
  exact ⟨a[n], by rw [rd_natCast]; exact List.getElem?_eq_getElem hn⟩

theorem rd_none_of_length_le {α : Type} (a : List α) (i : Nat) (h : a.length ≤ i) :
    rd a (i : Int) = none := by
  rw [rd_natCast]
  exact List.getElem?_eq_none h

theorem rd_replicate_ne_one (n : Nat) (u : Int) :
    rd (List.replicate n (0 : Int)) u ≠ some 1 := by
  unfold rd
  split
  · simp
  · intro h
    rw [List.getElem?_replicate] at h
    split at h
    · exact absurd (Option.some.inj h) (by decide)
    · exact absurd h (by simp)

theorem wr_natCast {α : Type} (a : List α) (i : Nat) (v : α) (h : i < a.length) :
    wr a (i : Int) v = some (a.set i v) := by
  unfold wr
  have h1 : (0 : Int) ≤ (i : Int) ∧ (i : Int) < (a.length : Int) := ⟨by omega, by omega⟩
  rw [if_pos h1, Int.toNat_ofNat]

theorem wr_eq_some {α : Type} (a a1 : List α) (i : Int) (v : α) (h : wr a i v = some a1) :
    0 ≤ i ∧ i < (a.length : Int) ∧ a1 = a.set i.toNat v := by
  unfold wr at h
  split at h
  · rename_i hb
    exact ⟨hb.1, hb.2, (Option.some.inj h).symm⟩
  · exact absurd h (by simp)

theorem getD_set_eq {α : Type} (a : List α) (i : Nat) (v dflt : α) (h : i < a.length) :
    (a.set i v).getD i dflt = v := by
  simp [List.getD, List.getElem?_set, h]

theorem getD_set_ne {α : Type} (a : List α) (i t : Nat) (v dflt : α) (h : i ≠ t) :
    (a.set i v).getD t dflt = a.getD t dflt := by
  simp [List.getD, List.getElem?_set, h]

theorem getD_mem {α : Type} (l : List α) (j : Nat) (dflt : α) (h : j < l.length) :
    l.getD j dflt ∈ l := by
  have : l.getD j dflt = l[j] := by
    simp [List.getD, List.getElem?_eq_getElem h]
  rw [this]
  exact List.getElem_mem h

theorem drop_eq_getD_cons {α : Type} (l : List α) (m : Nat) (dflt : α) (h : m < l.length) :
    l.drop m = l.getD m dflt :: l.drop (m + 1) := by
  rw [List.drop_eq_getElem_cons h]
  congr 1
  simp [List.getD, List.getElem?_eq_getElem h]

/-! ### The scorer `cost_heuristic` -/

theorem wrap_int_of_in_range (x : Int) (h0 : int_min ≤ x) (h1 : x ≤ int_max) :
    wrap_int x = x := by
  unfold wrap_int
  unfold int_min at h0
  unfold int_max at h1
  omega

theorem wrap_int_in_range (x : Int) : int_min ≤ wrap_int x ∧ wrap_int x ≤ int_max := by
  unfold wrap_int int_min int_max
  omega

theorem wrap_int_add_wrap_int (x y : Int) : wrap_int (wrap_int x + y) = wrap_int (x + y) := by
  unfold wrap_int
  omega

/-- The loop of `cost_heuristic` from an `int` total `cost`: the exact total
    reduced into the `int` range. -/
theorem cost_heuristic_loop_sum (state : State) (input_data : InputData)
    (hv : ∀ i ∈ List.range state.selected_bids_from_companies.length,
      valid_selection input_data i (state.selected_bids_from_companies.getD i no_bid)) :
    ∀ (k i : Nat) (cost : Int), i + k ≤ state.selected_bids_from_companies.length →
      int_min ≤ cost → cost ≤ int_max →
      cost_heuristic_loop state input_data k (i : Int) cost
        = some (wrap_int
            (cost + ((List.range' i k).map (selected_value state input_data)).sum)) := by
  intro k
  induction k with
  | zero =>
    intro i cost _ h0 h1
    simp only [cost_heuristic_loop, List.range'_zero, List.map_nil, List.sum_nil, add_zero]
    rw [wrap_int_of_in_range cost h0 h1]
  | succ k ih =>
    intro i cost hik h0 h1
    have hi : i < state.selected_bids_from_companies.length := by omega
    have hrd : rd state.selected_bids_from_companies (i : Int)
        = some (state.selected_bids_from_companies.getD i no_bid) := by
      rw [rd_natCast]; simp [List.getD, List.getElem?_eq_getElem hi]
    have hval := hv i (List.mem_range.mpr hi)
    have hnext := ih (i + 1)
    have hcast : ((i : Int) + 1) = ((i + 1 : Nat) : Int) := by push_cast; rfl
    simp only [cost_heuristic_loop, hrd, Option.bind_eq_bind, Option.some_bind, hcast]
    rw [List.range'_succ, List.map_cons, List.sum_cons]
    by_cases hs : state.selected_bids_from_companies.getD i no_bid = no_bid
    · simp only [hs, ne_eq, not_true_eq_false, if_false]
      have hsv : selected_value state input_data i = 0 := by
        simp only [selected_value, hs, if_true]
      rw [hnext cost (by omega) h0 h1, hsv, zero_add]
    · rcases hval with h | h
      · exact absurd h hs
      · obtain ⟨v, hv'⟩ := Option.isSome_iff_exists.mp h
        simp only [ne_eq, hs, not_false_eq_true, if_true, hv', Option.some_bind]
        have hsv : selected_value state input_data i = v := by
          simp only [selected_value, hs, if_false, hv', Option.getD_some]
        rw [hnext (wrap_int (cost + v)) (by omega) (wrap_int_in_range _).1
          (wrap_int_in_range _).2, hsv, wrap_int_add_wrap_int, add_assoc]

/-- The score of an allocation with valid selections is the sum of the
    selected values reduced into the `int` range. -/
theorem cost_heuristic_wrapped_sum (state : State) (input_data : InputData)
    (h : selections_valid state input_data) :
    cost_heuristic state input_data
      = some (wrap_int (((List.range state.selected_bids_from_companies.length).map
                (selected_value state input_data)).sum)) := by
  obtain ⟨hn, hv⟩ := h
  unfold cost_heuristic
  rw [hn, Int.toNat_ofNat]
  have := cost_heuristic_loop_sum state input_data hv
    state.selected_bids_from_companies.length 0 0 (by omega) (by decide) (by decide)
  simpa [List.range_eq_range'] using this

/-- C1 as stated fails: over `large_value_catalog` with both bids selected
    the selections are valid and the selected values 2147483647 and 1 sum to
    2147483648, but the `int` total of `cost_heuristic` is -2147483648. -/
theorem cost_heuristic_wraps_on_large_values :
    selections_valid large_value_state large_value_catalog ∧
    ((List.range large_value_state.selected_bids_from_companies.length).map
        (selected_value large_value_state large_value_catalog)).sum = 2147483648 ∧
    cost_heuristic large_value_state large_value_catalog = some (-2147483648) := by
  decide

/-- C1 (amended): when every selection of the allocation is `no_bid` or a bid
    index of its company and the sum over the companies of the value (entry 0)
    of the selected bid, a company on `no_bid` adding 0, lies in the range of
    a 32-bit `int`, `cost_heuristic` returns exactly that sum. -/
theorem cost_heuristic_is_sum_within_int_range (state : State) (input_data : InputData)
    (h : selections_valid state input_data)
    (hmin : int_min ≤ ((List.range state.selected_bids_from_companies.length).map
                (selected_value state input_data)).sum)
    (hmax : ((List.range state.selected_bids_from_companies.length).map
                (selected_value state input_data)).sum ≤ int_max) :
    cost_heuristic state input_data
      = some (((List.range state.selected_bids_from_companies.length).map
                (selected_value state input_data)).sum) := by
  rw [cost_heuristic_wrapped_sum state input_data h, wrap_int_of_in_range _ hmin hmax]

/-- Witness for C1 on Scenario B with both bids selected: the hypotheses hold
    and the score is 4 + 6. -/
theorem cost_heuristic_is_sum_within_int_range_witness :
    selections_valid scenario_B_state scenario_B_catalog ∧
    cost_heuristic scenario_B_state scenario_B_catalog = some 10 :=
  ⟨by decide,
   (cost_heuristic_is_sum_within_int_range scenario_B_state scenario_B_catalog
      (by decide) (by decide) (by decide)).trans (by decide)⟩

/-! ### The conflict checker `check_bid_collision` -/

theorem check_bid_collision_loop_spec (allocated bid : List Int) :
    ∀ (k i : Nat), i + k + 1 ≤ bid.length →
      (∀ j ∈ List.range' i k, 1 ≤ bid.getD (j + 1) 0 ∧
          bid.getD (j + 1) 0 ≤ (allocated.length : Int)) →
      ∃ r, check_bid_collision_loop bid k (i : Int) allocated = some (r, allocated) ∧
        (r = 1 ∨ r = 0) ∧
        (r = 1 ↔ ∀ j ∈ List.range' i k, ¬ unit_allocated allocated (bid.getD (j + 1) 0)) := by
  intro k
  induction k with
  | zero => intro i _ _; exact ⟨1, rfl, Or.inl rfl, by simp⟩
  | succ k ih =>
    intro i hlen hu
    have hcast : ((i : Int) + 1) = ((i + 1 : Nat) : Int) := by push_cast; rfl
    have hb : rd bid ((i + 1 : Nat) : Int) = some (bid.getD (i + 1) 0) :=
      rd_getD bid (i + 1) 0 (by omega)
    have hu0 := hu i (by simp [List.mem_range'_1])
    obtain ⟨a, ha⟩ := rd_isSome_of_bounds allocated (bid.getD (i + 1) 0 - 1)
      (by omega) (by omega)
    obtain ⟨r, hr, hr01, hiff⟩ := ih (i + 1) (by omega) (by
      intro j hj
      apply hu
      simp only [List.mem_range'_1] at hj ⊢
      omega)
    by_cases h1 : a = 1
    · refine ⟨0, ?_, Or.inr rfl, ?_⟩
      · simp only [check_bid_collision_loop, hcast, hb, ha, h1, Option.bind_eq_bind,
          Option.some_bind, if_true]
      · constructor
        · intro h; exact absurd h (by decide)
        · intro h
          exact absurd (show unit_allocated allocated (bid.getD (i + 1) 0) by
            unfold unit_allocated; rw [ha, h1]) (h i (by simp [List.mem_range'_1]))
    · refine ⟨r, ?_, hr01, ?_⟩
      · simp only [check_bid_collision_loop, hcast, hb, ha, h1, Option.bind_eq_bind,
          Option.some_bind, if_false]
        exact hr
      · rw [hiff]
        constructor
        · intro h j hj
          simp only [List.mem_range'_1] at hj
          by_cases hji : j = i
          · subst hji
            unfold unit_allocated; rw [ha]
            intro hc; exact h1 (Option.some.inj hc)
          · exact h j (by simp only [List.mem_range'_1]; omega)
        · intro h j hj
          simp only [List.mem_range'_1] at hj
          exact h j (by simp only [List.mem_range'_1]; omega)

/-- C2: for a bid record `[value, u_1, ..., u_n]` whose units all lie in
    `1..num_of_coal_blocks` (the length of the occupancy array),
    `check_bid_collision` called with `bid_length = n` returns `true` (1)
    exactly when none of `u_1..u_n` is marked allocated, returns `false` (0)
    otherwise, and leaves the occupancy array as it was. -/
theorem check_bid_collision_true_iff_units_free (allocated_coal_blocks bid : List Int)
    (n : Nat) (hlen : bid.length = n + 1)
    (hunits : ∀ k ∈ List.range n, 1 ≤ bid.getD (k + 1) 0 ∧
        bid.getD (k + 1) 0 ≤ (allocated_coal_blocks.length : Int)) :
    ∃ r, check_bid_collision allocated_coal_blocks bid (n : Int)
          = some (r, allocated_coal_blocks) ∧
      (r = 1 ∨ r = 0) ∧
      (r = 1 ↔ ∀ k ∈ List.range n,
          ¬ unit_allocated allocated_coal_blocks (bid.getD (k + 1) 0)) := by
  unfold check_bid_collision
  rw [Int.toNat_ofNat]
  have := check_bid_collision_loop_spec allocated_coal_blocks bid n 0 (by omega)
    (by simpa [List.range_eq_range'] using hunits)
  simpa [List.range_eq_range'] using this

/-- Witness for C2: the record `[5, 1, 2]` against the occupancy `[0, 1]`
    (unit 2 allocated) with `bid_length = 2`. -/
theorem check_bid_collision_true_iff_units_free_witness :
    ∃ r, check_bid_collision [0, 1] [5, 1, 2] ((2 : Nat) : Int) = some (r, [0, 1]) ∧
      (r = 1 ∨ r = 0) ∧
      (r = 1 ↔ ∀ k ∈ List.range 2,
          ¬ unit_allocated [0, 1] (([5, 1, 2] : List Int).getD (k + 1) 0)) :=
  check_bid_collision_true_iff_units_free [0, 1] [5, 1, 2] 2 (by decide) (by decide)

/-! ### Reading a catalog laid out by `take_input` -/

theorem catalog_shape_count (d : InputData) (hs : catalog_shape d) (i : Nat)
    (hi : i < d.bid_data.length) :
    rd d.bid_data_dimensions_dimensions (i : Int) = some ((bids_of d i).length : Int) := by
  obtain ⟨_, _, h3, _, hc⟩ := hs
  have := (hc i (List.mem_range.mpr hi)).1
  rw [rd_getD _ i 0 (by omega), this]

theorem bids_of_length_pos_lt (d : InputData) (i : Nat) (h : bids_of d i ≠ []) :
    i < d.bid_data.length := by
  by_contra hcon
  apply h
  unfold bids_of
  rw [List.getD_eq_default _ _ (by omega)]
  rfl

theorem rd_bid_data_of_bids_ne (d : InputData) (i : Nat)
    (hne : bids_of d i ≠ []) :
    rd d.bid_data (i : Int) = some (some (bids_of d i)) := by
  have hi : i < d.bid_data.length := by
    by_contra hcon
    apply hne
    unfold bids_of
    rw [List.getD_eq_default _ _ (by omega)]
    rfl
  rw [rd_getD _ i none hi]
  unfold bids_of at hne ⊢
  cases h : d.bid_data.getD i none with
  | none => rw [h] at hne; exact absurd rfl hne
  | some b => rfl

theorem bid_entry_eq (d : InputData) (i j m : Nat)
    (hj : j < (bids_of d i).length) (hm : m < ((bids_of d i).getD j []).length) :
    bid_entry d (i : Int) (j : Int) (m : Int)
      = some (((bids_of d i).getD j []).getD m 0) := by
  have hne : bids_of d i ≠ [] := by
    intro h; rw [h] at hj; exact absurd hj (by simp)
  unfold bid_entry
  rw [rd_bid_data_of_bids_ne d i hne]
  simp only [Option.join, Option.bind_eq_bind, Option.some_bind, id]
  rw [rd_getD _ j [] hj]
  simp only [Option.some_bind]
  exact rd_getD _ m 0 hm

theorem catalog_shape_bid_dim (d : InputData) (hs : catalog_shape d) (i j : Nat)
    (hi : i < d.bid_data.length) (hj : j < (bids_of d i).length) :
    bid_dim d (i : Int) (j : Int)
      = some ((((bids_of d i).getD j []).length : Nat) : Int) := by
  have hne : bids_of d i ≠ [] := by
    intro h; rw [h] at hj; exact absurd hj (by simp)
  obtain ⟨_, h2, _, _, hc⟩ := hs
  have hd := (hc i (List.mem_range.mpr hi)).2.2.1
  rw [if_neg hne] at hd
  unfold bid_dim
  rw [rd_getD _ i none (by omega), hd]
  simp only [Option.join, Option.bind_eq_bind, Option.some_bind, id]
  rw [rd_getD _ j 0 (by simpa using hj)]
  congr 1
  simp [List.getD, List.getElem?_map, List.getElem?_eq_getElem hj]

theorem catalog_shape_bid_value (d : InputData) (hs : catalog_shape d) (i j : Nat)
    (hj : j < (bids_of d i).length) :
    bid_entry d (i : Int) (j : Int) 0 = some (bid_value ((bids_of d i).getD j [])) := by
  have hne : bids_of d i ≠ [] := by
    intro h; rw [h] at hj; exact absurd hj (by simp)
  have hi := bids_of_length_pos_lt d i hne
  have hb := (hs.2.2.2.2 i (List.mem_range.mpr hi)).2.2.2 _ (getD_mem _ j [] hj)
  have := bid_entry_eq d i j 0 hj (List.length_pos.mpr hb)
  rw [Nat.cast_zero] at this
  rw [this]
  cases hl : (bids_of d i).getD j [] with
  | nil => exact absurd hl hb
  | cons x xs => rfl

theorem bid_units_eq_drop (bid : List Int) : bid_units bid = bid.drop 1 := by
  unfold bid_units
  cases bid <;> rfl

theorem selected_units_in_range (s : State) (d : InputData) (hu : units_in_range d)
    (k : Nat) (u : Int) (h : u ∈ selected_units s d k) :
    1 ≤ u ∧ u ≤ d.num_of_coal_blocks := by
  unfold selected_units at h
  simp only at h
  split at h
  · exact absurd h (by simp)
  · by_cases hlt : (s.selected_bids_from_companies.getD k no_bid).toNat < (bids_of d k).length
    · have hne : bids_of d k ≠ [] := by
        intro he; rw [he] at hlt; exact absurd hlt (by simp)
      exact hu k (List.mem_range.mpr (bids_of_length_pos_lt d k hne)) _
        (getD_mem _ _ [] hlt) u h
    · rw [List.getD_eq_default _ _ (by omega)] at h
      exact absurd h (by simp [bid_units])

/-- The score of a well-formed allocation of a catalog laid out by `take_input`
    is defined. -/
theorem cost_heuristic_defined (s : State) (d : InputData) (hs : catalog_shape d)
    (hwf : well_formed_allocation s d) : ∃ h, cost_heuristic s d = some h := by
  obtain ⟨w1, w2, w3, w4, w5⟩ := hwf
  have hn := hs.1
  have hv : ∀ i ∈ List.range s.selected_bids_from_companies.length,
      valid_selection d i (s.selected_bids_from_companies.getD i no_bid) := by
    intro i hi
    rcases w5 i hi with h | ⟨h0, h1⟩
    · exact Or.inl h
    · right
      obtain ⟨c, hc⟩ := Int.eq_ofNat_of_zero_le h0
      rw [hc] at h1 ⊢
      rw [catalog_shape_bid_value d hs i c (by exact_mod_cast h1)]
      rfl
  have hnc : s.num_of_companies.toNat = s.selected_bids_from_companies.length := by omega
  have := cost_heuristic_loop_sum s d hv s.selected_bids_from_companies.length 0 0 (by omega)
    (by decide) (by decide)
  rw [Nat.cast_zero] at this
  exact ⟨_, by unfold cost_heuristic; rw [hnc]; exact this⟩

/-! ### The initial constructor `find_initial_state` -/

/-- When no unit is marked allocated, a call of `check_bid_collision` whose
    `bid_length` is the whole length of the record runs off the record. -/
theorem check_bid_collision_loop_overrun (allocated bid : List Int)
    (hfree : ∀ u, rd allocated u ≠ some 1) :
    ∀ (k j : Nat), j + k = bid.length → 1 ≤ k →
      check_bid_collision_loop bid k (j : Int) allocated = none := by
  intro k
  induction k with
  | zero => intro j _ h; omega
  | succ k ih =>
    intro j hj _
    have hcast : ((j : Int) + 1) = ((j + 1 : Nat) : Int) := by push_cast; rfl
    by_cases hk : k = 0
    · have : rd bid ((j + 1 : Nat) : Int) = none :=
        rd_none_of_length_le bid (j + 1) (by omega)
      simp only [check_bid_collision_loop, hcast, this, Option.bind_eq_bind, Option.none_bind]
    · have hb : rd bid ((j + 1 : Nat) : Int) = some (bid.getD (j + 1) 0) :=
        rd_getD bid (j + 1) 0 (by omega)
      simp only [check_bid_collision_loop, hcast, hb, Option.bind_eq_bind, Option.some_bind]
      cases ha : rd allocated (bid.getD (j + 1) 0 - 1) with
      | none => rfl
      | some a =>
        have hne : a ≠ 1 := by
          intro h1; rw [h1] at ha; exact hfree _ ha
        simp only [Option.some_bind, if_neg hne]
        exact ih (j + 1) (by omega) (by omega)

theorem find_initial_state_loop_overrun (d : InputData) (hs : catalog_shape d) :
    ∀ (k i0 : Nat) (acc : List Int × List Int),
      (∃ i, i0 ≤ i ∧ i < i0 + k ∧ bids_of d i ≠ []) →
      (∀ u, rd acc.2 u ≠ some 1) →
      find_initial_state_loop d k (i0 : Int) acc = none := by
  intro k
  induction k with
  | zero => intro i0 acc ⟨i, h1, h2, _⟩ _; omega
  | succ k ih =>
    intro i0 acc ⟨i, h1, h2, hb⟩ hfree
    have hcast : ((i0 : Int) + 1) = ((i0 + 1 : Nat) : Int) := by push_cast; rfl
    by_cases he : bids_of d i0 = []
    · have hne : i ≠ i0 := by intro h; rw [h] at hb; exact hb he
      have hin : i < d.bid_data.length := bids_of_length_pos_lt d i hb
      have hsh := (hs.2.2.2.2 i0 (List.mem_range.mpr (by omega))).2.1
      have hp : rd d.bid_data (i0 : Int) = some none := by
        rw [rd_getD _ i0 none (by omega)]
        cases hg : d.bid_data.getD i0 none with
        | none => rfl
        | some b =>
          rw [hg] at hsh
          simp [he] at hsh
      simp only [find_initial_state_loop, hp, Option.bind_eq_bind, Option.some_bind, hcast]
      cases hw : wr acc.1 (i0 : Int) no_bid with
      | none => rfl
      | some sel1 =>
        simp only [Option.some_bind]
        exact ih (i0 + 1) (sel1, acc.2) ⟨i, by omega, by omega, hb⟩ hfree
    · have hin : i0 < d.bid_data.length := bids_of_length_pos_lt d i0 he
      have hpos : 0 < (bids_of d i0).length := List.length_pos.mpr he
      have hp := rd_bid_data_of_bids_ne d i0 he
      have hbid : rd (bids_of d i0) 0 = some ((bids_of d i0).getD 0 []) := by
        have := rd_getD (bids_of d i0) 0 [] hpos
        rwa [Nat.cast_zero] at this
      have hdim := catalog_shape_bid_dim d hs i0 0 hin hpos
      rw [Nat.cast_zero] at hdim
      have hrec := (hs.2.2.2.2 i0 (List.mem_range.mpr hin)).2.2.2 _
        (getD_mem (bids_of d i0) 0 [] hpos)
      have hover : check_bid_collision acc.2 ((bids_of d i0).getD 0 [])
          ((((bids_of d i0).getD 0 []).length : Nat) : Int) = none := by
        unfold check_bid_collision
        rw [Int.toNat_ofNat]
        have := check_bid_collision_loop_overrun acc.2 ((bids_of d i0).getD 0 []) hfree
          ((bids_of d i0).getD 0 []).length 0 (by omega) (List.length_pos.mpr hrec)
        rwa [Nat.cast_zero] at this
      simp only [find_initial_state_loop, hp, Option.bind_eq_bind, Option.some_bind, hbid,
        hdim, hover, Option.none_bind]

/-- On every catalog laid out as `take_input` builds it in which some company
    has a bid, `find_initial_state` runs off a bid record: the first company
    with a bid meets an all-free occupancy, and `check_bid_collision`, passed
    the recorded dimension (units + 1), reads the entry after the last unit. -/
theorem find_initial_state_overruns_record (input_data : InputData)
    (hshape : catalog_shape input_data)
    (hbid : ∃ i, i < input_data.bid_data.length ∧ bids_of input_data i ≠ []) :
    find_initial_state input_data = none := by
  obtain ⟨i, hi, hb⟩ := hbid
  have hn : input_data.num_of_companies.toNat = input_data.bid_data.length := by
    rw [hshape.1, Int.toNat_ofNat]
  have := find_initial_state_loop_overrun input_data hshape input_data.bid_data.length 0
    (List.replicate input_data.num_of_companies.toNat 0,
     List.replicate input_data.num_of_coal_blocks.toNat 0)
    ⟨i, by omega, by omega, hb⟩ (fun u => rd_replicate_ne_one _ u)
  rw [Nat.cast_zero, hn] at this
  unfold find_initial_state
  rw [hn, this]
  rfl

/-- C3 (the code departs from the claim): on the well-formed catalog with one
    company and the single bid `[5, 1]`, the claim assigns bid 0 to the
    company.  `find_initial_state` passes the recorded dimension 2 (value +
    one unit) as `bid_length`, so `check_bid_collision` reads `bid[2]`, past
    the end of the record, and no state is returned; with `bid_length = 1`
    the check succeeds. -/
theorem find_initial_state_single_bid_out_of_range :
    well_formed_catalog single_bid_catalog ∧
    bid_dim single_bid_catalog 0 0 = some 2 ∧
    check_bid_collision [0] [5, 1] 2 = none ∧
    check_bid_collision [0] [5, 1] 1 = some (1, [0]) ∧
    find_initial_state single_bid_catalog = none := by
  decide

/-! ### The successor generator: out-of-range reads of the release loop -/

theorem copy_loop_drop (src : List Int) :
    ∀ (k i : Nat), i + k = src.length → copy_loop src k (i : Int) = some (src.drop i) := by
  intro k
  induction k with
  | zero =>
    intro i hi
    rw [List.drop_of_length_le (by omega)]
    rfl
  | succ k ih =>
    intro i hi
    have hcast : ((i : Int) + 1) = ((i + 1 : Nat) : Int) := by push_cast; rfl
    have hlt : i < src.length := by omega
    have hr : rd src (i : Int) = some src[i] := by
      rw [rd_natCast]; exact List.getElem?_eq_getElem hlt
    simp only [copy_loop, hr, hcast, ih (i + 1) (by omega), Option.bind_eq_bind,
      Option.some_bind]
    rw [List.drop_eq_getElem_cons hlt]

/-- A state whose recorded sizes are the lengths of its arrays is copied as
    it is. -/
theorem create_copy_state_eq (state : State)
    (h1 : state.num_of_companies = (state.selected_bids_from_companies.length : Int))
    (h2 : state.num_of_coal_blocks = (state.allocated_coal_blocks.length : Int)) :
    create_copy_state state = some state := by
  obtain ⟨nc, nb, sel, alloc⟩ := state
  simp only at h1 h2
  subst h1; subst h2
  have ha := copy_loop_drop alloc alloc.length 0 (by omega)
  have hs := copy_loop_drop sel sel.length 0 (by omega)
  rw [Nat.cast_zero] at ha hs
  simp only [create_copy_state, Int.toNat_ofNat, ha, hs, List.drop_zero, Option.bind_eq_bind,
    Option.some_bind]

theorem bid_dim_neg_one (d : InputData) (i : Int) : bid_dim d i (-1) = none := by
  unfold bid_dim
  cases (rd d.bid_data_dimensions i).join with
  | none => rfl
  | some dims => rfl

/-- The trial of a candidate for a company that holds no bid reads
    `bid_data_dimensions[i][-1]` in the release loop. -/
theorem trial_of_no_bid (old_state : State) (d : InputData) (i : Nat) (j : Int)
    (h1 : old_state.num_of_companies = (old_state.selected_bids_from_companies.length : Int))
    (h2 : old_state.num_of_coal_blocks = (old_state.allocated_coal_blocks.length : Int))
    (hi : i < old_state.selected_bids_from_companies.length)
    (hsel : old_state.selected_bids_from_companies.getD i no_bid = no_bid) :
    trial old_state d (i : Int) j = none := by
  unfold trial
  rw [create_copy_state_eq old_state h1 h2]
  simp only [Option.bind_eq_bind, Option.some_bind]
  rw [rd_getD _ i no_bid hi, hsel]
  simp only [Option.some_bind]
  have : bid_dim d (i : Int) no_bid = none := bid_dim_neg_one d i
  rw [this]
  rfl

theorem generate_successor_inner_of_no_bid (old_state : State) (d : InputData) (i : Nat)
    (h1 : old_state.num_of_companies = (old_state.selected_bids_from_companies.length : Int))
    (h2 : old_state.num_of_coal_blocks = (old_state.allocated_coal_blocks.length : Int))
    (hi : i < old_state.selected_bids_from_companies.length)
    (hsel : old_state.selected_bids_from_companies.getD i no_bid = no_bid)
    (k : Nat) (acc : State × Int) :
    generate_successor_inner old_state d (i : Int) (k + 2) (-1) acc = none := by
  have hr := rd_getD old_state.selected_bids_from_companies i no_bid hi
  rw [hsel] at hr
  have ht := trial_of_no_bid old_state d i 0 h1 h2 hi hsel
  have h0 : (-1 : Int) + 1 = 0 := by norm_num
  have hne : (0 : Int) ≠ no_bid := by decide
  have heq : ¬ ((-1 : Int) ≠ no_bid) := by decide
  simp only [generate_successor_inner, hr, Option.bind_eq_bind, Option.some_bind, h0, ht,
    if_neg heq, if_pos hne, Option.none_bind]

theorem generate_successor_outer_of_no_bid (old_state : State) (d : InputData)
    (hs : catalog_shape d) (i : Nat)
    (h1 : old_state.num_of_companies = (old_state.selected_bids_from_companies.length : Int))
    (h2 : old_state.num_of_coal_blocks = (old_state.allocated_coal_blocks.length : Int))
    (hi : i < old_state.selected_bids_from_companies.length)
    (hb : bids_of d i ≠ [])
    (hsel : old_state.selected_bids_from_companies.getD i no_bid = no_bid) :
    ∀ (k i0 : Nat) (acc : State × Int), i0 ≤ i → i < i0 + k →
      generate_successor_outer old_state d k (i0 : Int) acc = none := by
  intro k
  induction k with
  | zero => intro i0 acc h3 h4; omega
  | succ k ih =>
    intro i0 acc h3 h4
    have hcast : ((i0 : Int) + 1) = ((i0 + 1 : Nat) : Int) := by push_cast; rfl
    simp only [generate_successor_outer, Option.bind_eq_bind, hcast]
    cases hn : rd d.bid_data_dimensions_dimensions (i0 : Int) with
    | none => rfl
    | some n =>
      simp only [Option.some_bind]
      by_cases heq : i0 = i
      · subst heq
        have hcnt := catalog_shape_count d hs i0 (bids_of_length_pos_lt d i0 hb)
        rw [hcnt] at hn
        have hn1 := Option.some.inj hn
        have hpos : 0 < (bids_of d i0).length := List.length_pos.mpr hb
        obtain ⟨c, hc⟩ : ∃ c : Nat, (n + 1).toNat = c + 2 := ⟨(bids_of d i0).length - 1, by omega⟩
        rw [hc, generate_successor_inner_of_no_bid old_state d i0 h1 h2 hi hsel c acc]
        rfl
      · cases hin : generate_successor_inner old_state d (i0 : Int) (n + 1).toNat (-1) acc with
        | none => rfl
        | some acc1 =>
          simp only [Option.some_bind]
          exact ih (i0 + 1) acc1 (by omega) (by omega)

/-- On every catalog laid out as `take_input` builds it and every well-formed
    allocation in which some company that has a bid holds `no_bid`,
    `generate_successor` performs the out-of-range read
    `bid_data_dimensions[i][-1]` and returns no state. -/
theorem generate_successor_release_out_of_range (old_state : State) (input_data : InputData)
    (hshape : catalog_shape input_data)
    (hstate : well_formed_allocation old_state input_data)
    (hno : ∃ i, i < input_data.bid_data.length ∧ bids_of input_data i ≠ [] ∧
      old_state.selected_bids_from_companies.getD i no_bid = no_bid) :
    generate_successor old_state input_data = none := by
  obtain ⟨i, hi, hb, hsel⟩ := hno
  obtain ⟨w1, w2, w3, w4, _⟩ := hstate
  have hlen : old_state.selected_bids_from_companies.length = input_data.bid_data.length := by
    have := hshape.1; omega
  have hn : input_data.num_of_companies.toNat = input_data.bid_data.length := by
    rw [hshape.1, Int.toNat_ofNat]
  have h1 : old_state.num_of_companies
      = (old_state.selected_bids_from_companies.length : Int) := by omega
  have h2 : old_state.num_of_coal_blocks
      = (old_state.allocated_coal_blocks.length : Int) := by omega
  unfold generate_successor
  rw [create_copy_state_eq old_state h1 h2, hn]
  simp only [Option.bind_eq_bind, Option.some_bind]
  have := generate_successor_outer_of_no_bid old_state input_data hshape i h1 h2 (by omega)
    hb hsel input_data.bid_data.length 0 (old_state, 0) (by omega) (by omega)
  rw [Nat.cast_zero] at this
  rw [this]
  rfl

/-! ### The successor generator: what a returned state satisfies -/

/-- Invariant rule for the inner loop of `generate_successor`: a property of
    `(successor_state, h_max)` that holds before the loop and for the copy of
    every scored trial holds after the loop. -/
theorem generate_successor_inner_rule (old_state : State) (d : InputData) (i : Int)
    (P : State × Int → Prop) :
    ∀ (k : Nat) (j : Int) (acc acc1 : State × Int),
      generate_successor_inner old_state d i k j acc = some acc1 →
      P acc →
      (∀ (j1 cur : Int) (new_state c : State) (h : Int), j ≤ j1 → j1 < j + (k : Int) →
        rd old_state.selected_bids_from_companies i = some cur → j1 ≠ cur →
        trial old_state d i j1 = some (some new_state) →
        cost_heuristic new_state d = some h →
        create_copy_state new_state = some c → P (c, h)) →
      P acc1 := by
  intro k
  induction k with
  | zero =>
    intro j acc acc1 hrun hacc _
    simp only [generate_successor_inner] at hrun
    rw [← Option.some.inj hrun]; exact hacc
  | succ k ih =>
    intro j acc acc1 hrun hacc hstep
    have hstep1 : ∀ (j1 cur : Int) (new_state c : State) (h : Int), j + 1 ≤ j1 →
        j1 < j + 1 + (k : Int) →
        rd old_state.selected_bids_from_companies i = some cur → j1 ≠ cur →
        trial old_state d i j1 = some (some new_state) →
        cost_heuristic new_state d = some h →
        create_copy_state new_state = some c → P (c, h) := by
      intro j1 cur ns c h h1 h2
      exact hstep j1 cur ns c h (by omega) (by push_cast; omega)
    simp only [generate_successor_inner, Option.bind_eq_bind] at hrun
    cases hcur : rd old_state.selected_bids_from_companies i with
    | none => rw [hcur] at hrun; exact absurd hrun (by simp)
    | some cur =>
      rw [hcur] at hrun
      simp only [Option.some_bind] at hrun
      by_cases hj : j ≠ cur
      · rw [if_pos hj] at hrun
        cases ht : trial old_state d i j with
        | none => rw [ht] at hrun; exact absurd hrun (by simp)
        | some t =>
          rw [ht] at hrun
          simp only [Option.some_bind] at hrun
          cases t with
          | none => exact ih (j + 1) acc acc1 hrun hacc hstep1
          | some ns =>
            simp only at hrun
            cases hh : cost_heuristic ns d with
            | none => rw [hh] at hrun; exact absurd hrun (by simp)
            | some h =>
              rw [hh] at hrun
              simp only [Option.some_bind] at hrun
              by_cases hgt : h > acc.2
              · rw [if_pos hgt] at hrun
                cases hc : create_copy_state ns with
                | none => rw [hc] at hrun; exact absurd hrun (by simp)
                | some c =>
                  rw [hc] at hrun
                  simp only [Option.some_bind] at hrun
                  exact ih (j + 1) (c, h) acc1 hrun
                    (hstep j cur ns c h (le_refl _) (by push_cast; omega) hcur hj ht hh hc)
                    hstep1
              · rw [if_neg hgt] at hrun
                exact ih (j + 1) acc acc1 hrun hacc hstep1
      · rw [if_neg hj] at hrun
        exact ih (j + 1) acc acc1 hrun hacc hstep1

/-- Invariant rule for the outer loop of `generate_successor`. -/
theorem generate_successor_outer_rule (old_state : State) (d : InputData)
    (P : State × Int → Prop) :
    ∀ (k : Nat) (i : Int) (acc acc1 : State × Int),
      generate_successor_outer old_state d k i acc = some acc1 →
      P acc →
      (∀ (i1 n j1 cur : Int) (new_state c : State) (h : Int), i ≤ i1 → i1 < i + (k : Int) →
        rd d.bid_data_dimensions_dimensions i1 = some n →
        -1 ≤ j1 → j1 < n →
        rd old_state.selected_bids_from_companies i1 = some cur → j1 ≠ cur →
        trial old_state d i1 j1 = some (some new_state) →
        cost_heuristic new_state d = some h →
        create_copy_state new_state = some c → P (c, h)) →
      P acc1 := by
  intro k
  induction k with
  | zero =>
    intro i acc acc1 hrun hacc _
    simp only [generate_successor_outer] at hrun
    rw [← Option.some.inj hrun]; exact hacc
  | succ k ih =>
    intro i acc acc1 hrun hacc hstep
    simp only [generate_successor_outer, Option.bind_eq_bind] at hrun
    cases hn : rd d.bid_data_dimensions_dimensions i with
    | none => rw [hn] at hrun; exact absurd hrun (by simp)
    | some n =>
      rw [hn] at hrun
      simp only [Option.some_bind] at hrun
      cases hin : generate_successor_inner old_state d i (n + 1).toNat (-1) acc with
      | none => rw [hin] at hrun; exact absurd hrun (by simp)
      | some acc2 =>
        rw [hin] at hrun
        simp only [Option.some_bind] at hrun
        have hmid : P acc2 := by
          apply generate_successor_inner_rule old_state d i P _ _ _ _ hin hacc
          intro j1 cur ns c h h1 h2 hcur hne ht hh hc
          exact hstep i n j1 cur ns c h (le_refl _) (by push_cast; omega) hn h1
            (by omega) hcur hne ht hh hc
        apply ih (i + 1) acc2 acc1 hrun hmid
        intro i1 n1 j1 cur ns c h h1 h2
        exact hstep i1 n1 j1 cur ns c h (by omega) (by push_cast; omega)

/-- What a marking loop that starts at entry `m` of the record `bid` of bid `j`
    of company `i` and runs to the end of the record leaves behind: the blocks
    of the entries from `m` on hold `v`, every other block is as before. -/
theorem mark_loop_spec (d : InputData) (i j : Int) (v : Int) (bid : List Int)
    (hentry : ∀ m : Nat, m < bid.length → bid_entry d i j (m : Int) = some (bid.getD m 0)) :
    ∀ (k m : Nat) (a a1 : List Int), m + k = bid.length →
      mark_loop d i j v k (m : Int) a = some a1 →
      a1.length = a.length ∧
      (∀ u ∈ bid.drop m, 1 ≤ u ∧ u ≤ (a.length : Int)) ∧
      ∀ b : Nat, a1.getD b 0 = if ((b : Int) + 1) ∈ bid.drop m then v else a.getD b 0 := by
  intro k
  induction k with
  | zero =>
    intro m a a1 hm hrun
    simp only [mark_loop] at hrun
    rw [← Option.some.inj hrun, List.drop_of_length_le (by omega)]
    simp
  | succ k ih =>
    intro m a a1 hm hrun
    have hcast : ((m : Int) + 1) = ((m + 1 : Nat) : Int) := by push_cast; rfl
    have hlt : m < bid.length := by omega
    simp only [mark_loop, hentry m hlt, Option.bind_eq_bind, Option.some_bind, hcast] at hrun
    cases hw : wr a (bid.getD m 0 - 1) v with
    | none => rw [hw] at hrun; exact absurd hrun (by simp)
    | some a2 =>
      rw [hw] at hrun
      simp only [Option.some_bind] at hrun
      obtain ⟨h0, h1, h2⟩ := wr_eq_some _ _ _ _ hw
      obtain ⟨hl, hr, hv⟩ := ih (m + 1) a2 a1 (by omega) hrun
      have hl2 : a2.length = a.length := by rw [h2]; simp
      have hdrop := drop_eq_getD_cons bid m 0 hlt
      refine ⟨by omega, ?_, ?_⟩
      · intro u hu
        rw [hdrop] at hu
        rcases List.mem_cons.mp hu with h | h
        · subst h; exact ⟨by omega, by omega⟩
        · have := hr u h; rw [hl2] at this; exact this
      · intro b
        rw [hv b, hdrop]
        by_cases hmem : ((b : Int) + 1) ∈ bid.drop (m + 1)
        · rw [if_pos hmem, if_pos (List.mem_cons_of_mem _ hmem)]
        · by_cases hb : ((b : Int) + 1) = bid.getD m 0
          · have hbn : (bid.getD m 0 - 1).toNat = b := by omega
            rw [if_neg hmem, h2, hbn, getD_set_eq _ _ _ _ (by omega),
              if_pos (List.mem_cons.mpr (Or.inl hb))]
          · have hbn : (bid.getD m 0 - 1).toNat ≠ b := by omega
            have hnm : ¬ ((b : Int) + 1) ∈ bid.getD m 0 :: bid.drop (m + 1) := by
              intro hc
              rcases List.mem_cons.mp hc with h | h
              · exact hb h
              · exact hmem h
            rw [if_neg hmem, h2, getD_set_ne _ _ _ _ _ hbn, if_neg hnm]

/-- A validity loop that ends with `flag = true` has found no entry from `m`
    on, read as a unit identifier, marked allocated. -/
theorem validity_loop_spec (d : InputData) (i j : Int) (a : List Int) (bid : List Int)
    (hentry : ∀ m : Nat, m < bid.length → bid_entry d i j (m : Int) = some (bid.getD m 0)) :
    ∀ (k m : Nat), m + k = bid.length →
      validity_loop d i j a k (m : Int) = some 1 →
      ∀ u ∈ bid.drop m, ¬ unit_allocated a u := by
  intro k
  induction k with
  | zero =>
    intro m hm _ u hu
    rw [List.drop_of_length_le (by omega)] at hu
    exact absurd hu (by simp)
  | succ k ih =>
    intro m hm hrun u hu
    have hcast : ((m : Int) + 1) = ((m + 1 : Nat) : Int) := by push_cast; rfl
    have hlt : m < bid.length := by omega
    simp only [validity_loop, hentry m hlt, Option.bind_eq_bind, Option.some_bind, hcast]
      at hrun
    cases hr : rd a (bid.getD m 0 - 1) with
    | none => rw [hr] at hrun; exact absurd hrun (by simp)
    | some x =>
      rw [hr] at hrun
      simp only [Option.some_bind] at hrun
      by_cases hx : x = 1
      · rw [if_pos hx] at hrun
        exact absurd (Option.some.inj hrun) (by decide)
      · rw [if_neg hx] at hrun
        rw [drop_eq_getD_cons bid m 0 hlt] at hu
        rcases List.mem_cons.mp hu with h | h
        · subst h
          unfold unit_allocated
          rw [hr]
          intro hc; exact hx (Option.some.inj hc)
        · exact ih (m + 1) (by omega) hrun u h

/-- Anatomy of a kept trial: the current selection of company `i` is a bid,
    the released occupancy `a1` clears exactly its units, no unit of the
    candidate is marked in `a1`, and the trial state is the old state with
    selection `j` for company `i` and the candidate's units marked in `a1`. -/
theorem trial_kept_spec (s : State) (d : InputData) (hs : catalog_shape d) (i : Nat) (j : Int)
    (ns : State)
    (h1 : s.num_of_companies = (s.selected_bids_from_companies.length : Int))
    (h2 : s.num_of_coal_blocks = (s.allocated_coal_blocks.length : Int))
    (hi : i < s.selected_bids_from_companies.length) (hin : i < d.bid_data.length)
    (hcur : s.selected_bids_from_companies.getD i no_bid = no_bid ∨
      (0 ≤ s.selected_bids_from_companies.getD i no_bid ∧
       s.selected_bids_from_companies.getD i no_bid < ((bids_of d i).length : Int)))
    (hj : j = no_bid ∨ (0 ≤ j ∧ j < ((bids_of d i).length : Int)))
    (ht : trial s d (i : Int) j = some (some ns)) :
    0 ≤ s.selected_bids_from_companies.getD i no_bid ∧
    ns.num_of_companies = s.num_of_companies ∧
    ns.num_of_coal_blocks = s.num_of_coal_blocks ∧
    ns.selected_bids_from_companies = s.selected_bids_from_companies.set i j ∧
    ∃ a1 : List Int, a1.length = s.allocated_coal_blocks.length ∧
      ns.allocated_coal_blocks.length = s.allocated_coal_blocks.length ∧
      (∀ b : Nat, a1.getD b 0
        = if ((b : Int) + 1) ∈ selected_units s d i then 0
          else s.allocated_coal_blocks.getD b 0) ∧
      (∀ u ∈ candidate_units d i j, ¬ unit_allocated a1 u) ∧
      (∀ u ∈ candidate_units d i j, 1 ≤ u ∧ u ≤ (a1.length : Int)) ∧
      (∀ b : Nat, ns.allocated_coal_blocks.getD b 0
        = if ((b : Int) + 1) ∈ candidate_units d i j then 1 else a1.getD b 0) := by
  unfold trial at ht
  rw [create_copy_state_eq s h1 h2] at ht
  simp only [Option.bind_eq_bind, Option.some_bind] at ht
  rw [rd_getD _ i no_bid hi] at ht
  simp only [Option.some_bind] at ht
  rcases hcur with hc | ⟨hc0, hc1⟩
  · rw [hc] at ht
    have : bid_dim d (i : Int) no_bid = none := bid_dim_neg_one d i
    rw [this] at ht
    exact absurd ht (by simp)
  obtain ⟨c, hc⟩ := Int.eq_ofNat_of_zero_le hc0
  rw [hc] at ht hc1
  have hclt : c < (bids_of d i).length := by exact_mod_cast hc1
  rw [catalog_shape_bid_dim d hs i c hin hclt] at ht
  simp only [Option.some_bind] at ht
  have hrec : (bids_of d i).getD c [] ≠ [] :=
    (hs.2.2.2.2 i (List.mem_range.mpr hin)).2.2.2 _ (getD_mem _ c [] hclt)
  have hlen : 0 < ((bids_of d i).getD c []).length := List.length_pos.mpr hrec
  have hk : ((((bids_of d i).getD c []).length : Int) - 1).toNat
      = ((bids_of d i).getD c []).length - 1 := by omega
  rw [hk] at ht
  cases hm : mark_loop d (i : Int) (c : Int) 0 (((bids_of d i).getD c []).length - 1) 1
      s.allocated_coal_blocks with
  | none => rw [hm] at ht; exact absurd ht (by simp)
  | some a1 =>
    rw [hm] at ht
    simp only [Option.some_bind] at ht
    rw [wr_natCast _ i j hi] at ht
    simp only [Option.some_bind] at ht
    obtain ⟨hl1, _, hv1⟩ := mark_loop_spec d i c 0 ((bids_of d i).getD c [])
      (fun m hmlt => bid_entry_eq d i c m hclt hmlt)
      (((bids_of d i).getD c []).length - 1) 1 s.allocated_coal_blocks a1 (by omega)
      (by rw [Nat.cast_one]; exact hm)
    have hsel : selected_units s d i = ((bids_of d i).getD c []).drop 1 := by
      unfold selected_units
      simp only [hc]
      rw [if_neg (by omega), Int.toNat_ofNat, bid_units_eq_drop]
    refine ⟨by omega, ?_⟩
    rcases hj with hjn | ⟨hj0, hj1⟩
    · subst hjn
      have hcand : candidate_units d i no_bid = [] := by
        unfold candidate_units; rw [if_pos (by decide)]
      have e1 : ¬ (no_bid ≠ no_bid) := by simp
      simp only [if_neg e1, Option.some_bind, if_true] at ht
      have hns := Option.some.inj (Option.some.inj ht)
      rw [← hns]
      refine ⟨rfl, rfl, rfl, a1, hl1, hl1, ?_, ?_, ?_, ?_⟩
      · intro b; rw [hv1 b, hsel]
      · intro u hu; rw [hcand] at hu; exact absurd hu (by simp)
      · intro u hu; rw [hcand] at hu; exact absurd hu (by simp)
      · intro b; rw [hcand]; simp
    · obtain ⟨jn, hjn⟩ := Int.eq_ofNat_of_zero_le hj0
      subst hjn
      have hjlt : jn < (bids_of d i).length := by exact_mod_cast hj1
      have e1 : ((jn : Int) ≠ no_bid) := by unfold no_bid; omega
      rw [if_pos e1, if_pos e1, catalog_shape_bid_dim d hs i jn hin hjlt] at ht
      simp only [Option.some_bind, Int.toNat_ofNat] at ht
      have hrecj : (bids_of d i).getD jn [] ≠ [] :=
        (hs.2.2.2.2 i (List.mem_range.mpr hin)).2.2.2 _ (getD_mem _ jn [] hjlt)
      have hlenj : 0 < ((bids_of d i).getD jn []).length := List.length_pos.mpr hrecj
      have hkj : ((((bids_of d i).getD jn []).length : Int) - 1).toNat
          = ((bids_of d i).getD jn []).length - 1 := by omega
      rw [hkj] at ht
      have hcand : candidate_units d i (jn : Int) = ((bids_of d i).getD jn []).drop 1 := by
        unfold candidate_units
        rw [if_neg (by omega), Int.toNat_ofNat, bid_units_eq_drop]
      cases hf : validity_loop d (i : Int) (jn : Int) a1 ((bids_of d i).getD jn []).length 0 with
      | none => rw [hf] at ht; exact absurd ht (by simp)
      | some flag =>
        rw [hf] at ht
        simp only [Option.some_bind] at ht
        by_cases hflag : flag = 1
        · subst hflag
          simp only [if_true] at ht
          cases hm2 : mark_loop d (i : Int) (jn : Int) 1
              (((bids_of d i).getD jn []).length - 1) 1 a1 with
          | none => rw [hm2] at ht; exact absurd ht (by simp)
          | some a2 =>
            rw [hm2] at ht
            simp only [Option.some_bind] at ht
            have hns := Option.some.inj (Option.some.inj ht)
            obtain ⟨hl2, hr2, hv2⟩ := mark_loop_spec d i jn 1 ((bids_of d i).getD jn [])
              (fun m hmlt => bid_entry_eq d i jn m hjlt hmlt)
              (((bids_of d i).getD jn []).length - 1) 1 a1 a2 (by omega)
              (by rw [Nat.cast_one]; exact hm2)
            have hval := validity_loop_spec d i jn a1 ((bids_of d i).getD jn [])
              (fun m hmlt => bid_entry_eq d i jn m hjlt hmlt)
              ((bids_of d i).getD jn []).length 0 (by omega)
              (by rw [Nat.cast_zero]; exact hf)
            rw [← hns]
            refine ⟨rfl, rfl, rfl, a1, hl1, by simp only; omega, ?_, ?_, ?_, ?_⟩
            · intro b; rw [hv1 b, hsel]
            · intro u hu
              rw [hcand] at hu
              exact hval u (List.mem_of_mem_drop hu)
            · intro u hu
              rw [hcand] at hu
              exact hr2 u hu
            · intro b
              simp only
              rw [hv2 b, hcand]
        · rw [if_neg hflag] at ht
          exact absurd (Option.some.inj ht) (by simp)

theorem selected_units_set (s ns : State) (d : InputData) (i : Nat) (j : Int)
    (hi : i < s.selected_bids_from_companies.length)
    (hsel : ns.selected_bids_from_companies = s.selected_bids_from_companies.set i j)
    (k : Nat) :
    selected_units ns d k = if k = i then candidate_units d i j else selected_units s d k := by
  unfold selected_units candidate_units
  simp only [hsel]
  by_cases hk : k = i
  · subst hk
    rw [if_pos rfl, getD_set_eq _ _ _ _ hi]
  · rw [if_neg hk, getD_set_ne _ _ _ _ _ (fun h => hk h.symm)]

/-- A kept trial of a well-formed allocation is a well-formed allocation. -/
theorem trial_kept_well_formed (s : State) (d : InputData) (hs : catalog_shape d)
    (hwf : well_formed_allocation s d) (i : Nat) (j : Int) (ns : State)
    (hin : i < d.bid_data.length)
    (hj : j = no_bid ∨ (0 ≤ j ∧ j < ((bids_of d i).length : Int)))
    (ht : trial s d (i : Int) j = some (some ns)) :
    well_formed_allocation ns d := by
  obtain ⟨w1, w2, w3, w4, w5⟩ := hwf
  have hn := hs.1
  have hi : i < s.selected_bids_from_companies.length := by omega
  obtain ⟨_, n1, n2, n3, a1, hl1, hl2, _⟩ :=
    trial_kept_spec s d hs i j ns (by omega) (by omega) hi hin
      (w5 i (List.mem_range.mpr hi)) hj ht
  have hlen : ns.selected_bids_from_companies.length
      = s.selected_bids_from_companies.length := by rw [n3]; simp
  refine ⟨by omega, by omega, by omega, by omega, ?_⟩
  intro k hk
  rw [hlen] at hk
  rw [n3]
  by_cases hki : k = i
  · subst hki
    rw [getD_set_eq _ _ _ _ hi]
    exact hj
  · rw [getD_set_ne _ _ _ _ _ (fun h => hki h.symm)]
    exact w5 k hk

/-- A kept trial of a well-formed, conflict-free, occupancy-consistent
    allocation is again well-formed, conflict-free and occupancy-consistent. -/
theorem trial_preserves_invariants (s : State) (d : InputData) (hs : catalog_shape d)
    (hu : units_in_range d) (hwf : well_formed_allocation s d) (hcf : conflict_free s d)
    (hoc : occupancy_consistent s d) (i : Nat) (j : Int) (ns : State)
    (hin : i < d.bid_data.length)
    (hj : j = no_bid ∨ (0 ≤ j ∧ j < ((bids_of d i).length : Int)))
    (ht : trial s d (i : Int) j = some (some ns)) :
    well_formed_allocation ns d ∧ conflict_free ns d ∧ occupancy_consistent ns d := by
  obtain ⟨w1, w2, w3, w4, w5⟩ := hwf
  have hn := hs.1
  have hi : i < s.selected_bids_from_companies.length := by omega
  obtain ⟨_, n1, n2, n3, a1, hl1, hl2, hv1, hval, _, hv2⟩ :=
    trial_kept_spec s d hs i j ns (by omega) (by omega) hi hin
      (w5 i (List.mem_range.mpr hi)) hj ht
  have hsu := selected_units_set s ns d i j hi n3
  have hlen : ns.selected_bids_from_companies.length
      = s.selected_bids_from_companies.length := by rw [n3]; simp
  -- a unit held by another company is still marked after the release
  have hheld : ∀ (k : Nat) (u : Int), k < s.selected_bids_from_companies.length → k ≠ i →
      u ∈ selected_units s d k → unit_allocated a1 u := by
    intro k u hk hki huk
    have hr := selected_units_in_range s d hu k u huk
    obtain ⟨b, hb⟩ := Int.eq_ofNat_of_zero_le (show 0 ≤ u - 1 by omega)
    have hbu : ((b : Int) + 1) = u := by omega
    have hbl : b < s.allocated_coal_blocks.length := by omega
    have hmark : s.allocated_coal_blocks.getD b 0 = 1 :=
      ((hoc b (List.mem_range.mpr hbl)).2).mpr ⟨k, List.mem_range.mpr hk, by rw [hbu]; exact huk⟩
    have hnot : ¬ ((b : Int) + 1) ∈ selected_units s d i := by
      rw [hbu]
      exact hcf k (List.mem_range.mpr hk) i (List.mem_range.mpr hi) hki u huk
    unfold unit_allocated
    rw [hb, rd_getD a1 b 0 (by omega), hv1 b, if_neg hnot, hmark]
  refine ⟨⟨by omega, by omega, by omega, by omega, ?_⟩, ?_, ?_⟩
  · intro k hk
    rw [hlen] at hk
    rw [n3]
    by_cases hki : k = i
    · subst hki
      rw [getD_set_eq _ _ _ _ hi]
      exact hj
    · rw [getD_set_ne _ _ _ _ _ (fun h => hki h.symm)]
      exact w5 k hk
  · intro a ha k hk hak u hua huk
    rw [hlen] at ha hk
    rw [hsu a] at hua
    rw [hsu k] at huk
    by_cases hai : a = i
    · have hki : k ≠ i := fun h => hak (hai.trans h.symm)
      rw [if_pos hai] at hua
      rw [if_neg hki] at huk
      exact hval u hua (hheld k u (List.mem_range.mp hk) hki huk)
    · rw [if_neg hai] at hua
      by_cases hki : k = i
      · rw [if_pos hki] at huk
        exact hval u huk (hheld a u (List.mem_range.mp ha) hai hua)
      · rw [if_neg hki] at huk
        exact hcf a ha k hk hak u hua huk
  · intro b hb
    rw [hl2] at hb
    obtain ⟨h01, hiff⟩ := hoc b hb
    rw [hv2 b, hv1 b, hlen]
    by_cases hc : ((b : Int) + 1) ∈ candidate_units d i j
    · rw [if_pos hc]
      refine ⟨Or.inl rfl, fun _ => ⟨i, List.mem_range.mpr hi, ?_⟩, fun _ => rfl⟩
      rw [hsu i, if_pos rfl]; exact hc
    · rw [if_neg hc]
      by_cases ho : ((b : Int) + 1) ∈ selected_units s d i
      · rw [if_pos ho]
        refine ⟨Or.inr rfl, fun h => absurd h (by decide), ?_⟩
        rintro ⟨k, hk, hmem⟩
        rw [hsu k] at hmem
        by_cases hki : k = i
        · rw [if_pos hki] at hmem; exact absurd hmem hc
        · rw [if_neg hki] at hmem
          exact absurd ho (hcf k hk i (List.mem_range.mpr hi) hki _ hmem)
      · rw [if_neg ho]
        refine ⟨h01, ?_, ?_⟩
        · intro h
          obtain ⟨k, hk, hmem⟩ := hiff.mp h
          have hki : k ≠ i := by
            intro he; rw [he] at hmem; exact ho hmem
          exact ⟨k, hk, by rw [hsu k, if_neg hki]; exact hmem⟩
        · rintro ⟨k, hk, hmem⟩
          rw [hsu k] at hmem
          by_cases hki : k = i
          · rw [if_pos hki] at hmem; exact absurd hmem hc
          · rw [if_neg hki] at hmem
            exact hiff.mpr ⟨k, hk, hmem⟩

/-- Whenever `generate_successor` returns a state from a well-formed,
    conflict-free, occupancy-consistent allocation of a well-formed catalog,
    the returned state is well-formed, conflict-free and
    occupancy-consistent. -/
theorem generate_successor_preserves_invariants (s : State) (d : InputData)
    (hs : catalog_shape d) (hu : units_in_range d) (hwf : well_formed_allocation s d)
    (hcf : conflict_free s d) (hoc : occupancy_consistent s d) (r : State)
    (hr : generate_successor s d = some r) :
    well_formed_allocation r d ∧ conflict_free r d ∧ occupancy_consistent r d := by
  have hn := hs.1
  have h1 : s.num_of_companies = (s.selected_bids_from_companies.length : Int) := by
    have := hwf.1; have := hwf.2.2.1; omega
  have h2 : s.num_of_coal_blocks = (s.allocated_coal_blocks.length : Int) := by
    have := hwf.2.1; have := hwf.2.2.2.1; omega
  unfold generate_successor at hr
  rw [create_copy_state_eq s h1 h2] at hr
  simp only [Option.bind_eq_bind, Option.some_bind] at hr
  cases hout : generate_successor_outer s d d.num_of_companies.toNat 0 (s, 0) with
  | none => rw [hout] at hr; exact absurd hr (by simp)
  | some acc1 =>
    rw [hout] at hr
    simp only [Option.some_bind] at hr
    rw [← Option.some.inj hr]
    refine generate_successor_outer_rule s d
      (fun acc => well_formed_allocation acc.1 d ∧ conflict_free acc.1 d ∧
        occupancy_consistent acc.1 d)
      _ _ _ _ hout ⟨hwf, hcf, hoc⟩ ?_
    intro i1 n j1 cur ns c h hi0 hi1 hcnt hj0 hj1 _ _ ht _ hc
    obtain ⟨i, rfl⟩ := Int.eq_ofNat_of_zero_le hi0
    have hin : i < d.bid_data.length := by
      rw [hn, Int.toNat_ofNat] at hi1; omega
    rw [catalog_shape_count d hs i hin] at hcnt
    have hnn := Option.some.inj hcnt
    have hj : j1 = no_bid ∨ (0 ≤ j1 ∧ j1 < ((bids_of d i).length : Int)) := by
      unfold no_bid; omega
    have hinv := trial_preserves_invariants s d hs hu hwf hcf hoc i j1 ns hin hj ht
    have hc1 : create_copy_state ns = some ns :=
      create_copy_state_eq ns (by have := hinv.1.1; have := hinv.1.2.2.1; omega)
        (by have := hinv.1.2.1; have := hinv.1.2.2.2.1; omega)
    rw [hc1] at hc
    rw [← Option.some.inj hc]
    exact hinv

/-- Scenario B meets the hypotheses of
    `generate_successor_preserves_invariants`. -/
theorem generate_successor_preserves_invariants_witness :
    well_formed_allocation
        { num_of_companies := 2, num_of_coal_blocks := 2,
          selected_bids_from_companies := [-1, 0], allocated_coal_blocks := [0, 1] }
        scenario_B_catalog ∧
    conflict_free
        { num_of_companies := 2, num_of_coal_blocks := 2,
          selected_bids_from_companies := [-1, 0], allocated_coal_blocks := [0, 1] }
        scenario_B_catalog ∧
    occupancy_consistent
        { num_of_companies := 2, num_of_coal_blocks := 2,
          selected_bids_from_companies := [-1, 0], allocated_coal_blocks := [0, 1] }
        scenario_B_catalog :=
  generate_successor_preserves_invariants scenario_B_state scenario_B_catalog (by decide)
    (by decide) (by decide) (by decide) (by decide) _ (by decide)

/-! ### The successor generator: best-move selection -/

/-- Folding `improve` over a list of scored trials ends at the first entry
    that attains the maximum, provided the maximum is above the start. -/
theorem foldl_improve_first_best (l : List (State × Int)) :
    ∀ (start : State) (h0 : Int),
      first_best l start h0 (l.foldl improve (start, h0)).1 (l.foldl improve (start, h0)).2 := by
  induction l with
  | nil =>
    intro start h0
    exact Or.inl ⟨fun q hq => absurd hq (by simp), rfl, rfl⟩
  | cons p l ih =>
    intro start h0
    rw [List.foldl_cons]
    by_cases hp : p.2 > h0
    · have himp : improve (start, h0) p = (p.1, p.2) := by
        unfold improve; rw [if_pos hp]
      rw [himp]
      rcases ih p.1 p.2 with ⟨hall, hr, hh⟩ | ⟨idx, hget, hlt, hall, hfirst⟩
      · right
        refine ⟨0, ?_, ?_, ?_, fun t ht => absurd ht (by omega)⟩
        · rw [hr, hh, List.getElem?_cons_zero]
        · rw [hh]; exact hp
        · intro q hq
          rw [hh]
          rcases List.mem_cons.mp hq with h | h
          · rw [h]
          · exact hall q h
      · right
        refine ⟨idx + 1, ?_, by omega, ?_, ?_⟩
        · rw [List.getElem?_cons_succ]; exact hget
        · intro q hq
          rcases List.mem_cons.mp hq with h | h
          · rw [h]; omega
          · exact hall q h
        · intro t ht q hq
          cases t with
          | zero =>
            rw [List.getElem?_cons_zero] at hq
            rw [← Option.some.inj hq]; exact hlt
          | succ t =>
            rw [List.getElem?_cons_succ] at hq
            exact hfirst t (by omega) q hq
    · have himp : improve (start, h0) p = (start, h0) := by
        unfold improve; rw [if_neg hp]
      rw [himp]
      rcases ih start h0 with ⟨hall, hr, hh⟩ | ⟨idx, hget, hlt, hall, hfirst⟩
      · left
        refine ⟨?_, hr, hh⟩
        intro q hq
        rcases List.mem_cons.mp hq with h | h
        · rw [h]; omega
        · exact hall q h
      · right
        refine ⟨idx + 1, ?_, hlt, ?_, ?_⟩
        · rw [List.getElem?_cons_succ]; exact hget
        · intro q hq
          rcases List.mem_cons.mp hq with h | h
          · rw [h]; omega
          · exact hall q h
        · intro t ht q hq
          cases t with
          | zero =>
            rw [List.getElem?_cons_zero] at hq
            rw [← Option.some.inj hq]; omega
          | succ t =>
            rw [List.getElem?_cons_succ] at hq
            exact hfirst t (by omega) q hq

/-- One pass of the body of the inner loop of `generate_successor`, for a
    candidate whose trial performs no out-of-range access: the accumulator is
    improved by the scored trial of the move, when the move is one. -/
theorem generate_successor_inner_step (s : State) (d : InputData) (hs : catalog_shape d)
    (hwf : well_formed_allocation s d) (i : Nat) (hin : i < d.bid_data.length) (j : Int)
    (hj : j = no_bid ∨ (0 ≤ j ∧ j < ((bids_of d i).length : Int)))
    (hdef : j ≠ s.selected_bids_from_companies.getD i no_bid →
      (trial s d (i : Int) j).isSome = true)
    (k : Nat) (acc : State × Int) :
    generate_successor_inner s d (i : Int) (k + 1) j acc
      = generate_successor_inner s d (i : Int) k (j + 1)
          ((((if j ≠ s.selected_bids_from_companies.getD i no_bid then [(i, j)] else []).filterMap
              (scored_trial s d))).foldl improve acc) := by
  have hi : i < s.selected_bids_from_companies.length := by
    have := hs.1; have := hwf.2.2.1; omega
  have hcur := rd_getD s.selected_bids_from_companies i no_bid hi
  simp only [generate_successor_inner, hcur, Option.bind_eq_bind, Option.some_bind]
  by_cases hne : j ≠ s.selected_bids_from_companies.getD i no_bid
  · rw [if_pos hne, if_pos hne]
    obtain ⟨t, ht⟩ := Option.isSome_iff_exists.mp (hdef hne)
    rw [ht]
    simp only [Option.some_bind, List.filterMap_cons, List.filterMap_nil]
    cases t with
    | none =>
      simp only [scored_trial, ht, List.foldl_nil]
    | some ns =>
      have hwfn := trial_kept_well_formed s d hs hwf i j ns hin hj ht
      obtain ⟨h, hh⟩ := cost_heuristic_defined ns d hs hwfn
      have hc1 : create_copy_state ns = some ns :=
        create_copy_state_eq ns (by have := hwfn.1; have := hwfn.2.2.1; omega)
          (by have := hwfn.2.1; have := hwfn.2.2.2.1; omega)
      simp only [scored_trial, ht, hh, Option.map_some', Option.some_bind, hc1,
        List.foldl_cons, List.foldl_nil, improve]
      by_cases hgt : h > acc.2
      · simp only [if_pos hgt]
      · simp only [if_neg hgt]
  · rw [if_neg hne, if_neg hne]
    simp only [List.filterMap_nil, List.foldl_nil]

theorem foldl_improve_moves_among_cons (s : State) (d : InputData) (i : Nat) (j : Int)
    (cands : List Int) (acc : State × Int) :
    ((moves_among s i (j :: cands)).filterMap (scored_trial s d)).foldl improve acc
      = ((moves_among s i cands).filterMap (scored_trial s d)).foldl improve
          ((((if j ≠ s.selected_bids_from_companies.getD i no_bid then [(i, j)] else []).filterMap
              (scored_trial s d))).foldl improve acc) := by
  unfold moves_among
  by_cases hne : j ≠ s.selected_bids_from_companies.getD i no_bid
  · rw [if_pos hne, List.filter_cons_of_pos (by simpa using hne), List.map_cons]
    cases hsc : scored_trial s d (i, j) with
    | none =>
      rw [List.filterMap_cons_none hsc, List.filterMap_cons_none hsc, List.filterMap_nil,
        List.foldl_nil]
    | some p =>
      rw [List.filterMap_cons_some hsc, List.filterMap_cons_some hsc, List.filterMap_nil,
        List.foldl_cons, List.foldl_cons, List.foldl_nil]
  · rw [if_neg hne, List.filter_cons_of_neg (by simpa using hne), List.filterMap_nil,
      List.foldl_nil]

/-- The inner loop of `generate_successor` over the bid indices `j0`, ...,
    `j0 + k - 1` folds `improve` over the scored kept trials of these
    candidates, when no trial performs an out-of-range access. -/
theorem generate_successor_inner_fold (s : State) (d : InputData) (hs : catalog_shape d)
    (hwf : well_formed_allocation s d) (i : Nat) (hin : i < d.bid_data.length) :
    ∀ (k j0 : Nat) (acc : State × Int), j0 + k = (bids_of d i).length →
      (∀ j ∈ List.range' j0 k, ((j : Nat) : Int) ≠ s.selected_bids_from_companies.getD i no_bid →
        (trial s d (i : Int) (j : Int)).isSome = true) →
      generate_successor_inner s d (i : Int) k (j0 : Int) acc
        = some (((moves_among s i ((List.range' j0 k).map (fun (t : Nat) => (t : Int)))).filterMap
            (scored_trial s d)).foldl improve acc) := by
  intro k
  induction k with
  | zero =>
    intro j0 acc _ _
    rfl
  | succ k ih =>
    intro j0 acc hjk hdef
    have hcast : ((j0 : Int) + 1) = ((j0 + 1 : Nat) : Int) := by push_cast; rfl
    rw [generate_successor_inner_step s d hs hwf i hin (j0 : Int)
      (Or.inr ⟨by omega, by omega⟩) (hdef j0 (by simp [List.mem_range'_1])) k acc, hcast,
      ih (j0 + 1) _ (by omega) (fun j hj => hdef j (by
        simp only [List.mem_range'_1] at hj ⊢; omega)),
      List.range'_succ, List.map_cons, foldl_improve_moves_among_cons]

/-- The inner loop of `generate_successor` for company `i` folds `improve` over
    the scored kept trials of the moves of the company. -/
theorem generate_successor_inner_company (s : State) (d : InputData) (hs : catalog_shape d)
    (hwf : well_formed_allocation s d) (i : Nat) (hin : i < d.bid_data.length)
    (hdef : ∀ p ∈ moves_of_company s d i, (trial s d (p.1 : Int) p.2).isSome = true)
    (acc : State × Int) :
    generate_successor_inner s d (i : Int) ((((bids_of d i).length : Nat) : Int) + 1).toNat
        (-1) acc
      = some (((moves_of_company s d i).filterMap (scored_trial s d)).foldl improve acc) := by
  have hk : ((((bids_of d i).length : Nat) : Int) + 1).toNat = (bids_of d i).length + 1 := by
    omega
  have hmem : ∀ j : Int, j ∈ candidates (bids_of d i).length →
      j ≠ s.selected_bids_from_companies.getD i no_bid →
      (trial s d (i : Int) j).isSome = true := by
    intro j hj hne
    have : (i, j) ∈ moves_of_company s d i := by
      unfold moves_of_company moves_among
      exact List.mem_map.mpr ⟨j, List.mem_filter.mpr ⟨hj, by simpa using hne⟩, rfl⟩
    exact hdef (i, j) this
  have h0 : (-1 : Int) + 1 = ((0 : Nat) : Int) := by norm_num
  rw [hk, generate_successor_inner_step s d hs hwf i hin (-1) (Or.inl rfl)
    (hmem (-1) (by unfold candidates no_bid; exact List.mem_cons_self _ _)) _ acc, h0,
    generate_successor_inner_fold s d hs hwf i hin (bids_of d i).length 0 _ (by omega)
      (fun j hj hne => hmem (j : Int) (by
        unfold candidates
        exact List.mem_cons_of_mem _ (List.mem_map.mpr ⟨j, hj, rfl⟩)) hne)]
  unfold moves_of_company candidates
  rw [foldl_improve_moves_among_cons]
  rfl

/-- The outer loop of `generate_successor` over the companies `i0`, ...,
    `i0 + k - 1` folds `improve` over the scored kept trials of their moves,
    when no trial performs an out-of-range access. -/
theorem generate_successor_outer_fold (s : State) (d : InputData) (hs : catalog_shape d)
    (hwf : well_formed_allocation s d) :
    ∀ (k i0 : Nat) (acc : State × Int), i0 + k = d.bid_data.length →
      (∀ i ∈ List.range' i0 k, ∀ p ∈ moves_of_company s d i,
        (trial s d (p.1 : Int) p.2).isSome = true) →
      generate_successor_outer s d k (i0 : Int) acc
        = some ((((List.range' i0 k).flatMap (moves_of_company s d)).filterMap
            (scored_trial s d)).foldl improve acc) := by
  intro k
  induction k with
  | zero =>
    intro i0 acc _ _
    rfl
  | succ k ih =>
    intro i0 acc hik hdef
    have hcast : ((i0 : Int) + 1) = ((i0 + 1 : Nat) : Int) := by push_cast; rfl
    have hin : i0 < d.bid_data.length := by omega
    simp only [generate_successor_outer, catalog_shape_count d hs i0 hin, Option.bind_eq_bind,
      Option.some_bind, hcast]
    rw [generate_successor_inner_company s d hs hwf i0 hin
      (hdef i0 (by simp [List.mem_range'_1])) acc]
    simp only [Option.some_bind]
    rw [ih (i0 + 1) _ (by omega) (fun i hi => hdef i (by
        simp only [List.mem_range'_1] at hi ⊢; omega)),
      List.range'_succ, List.flatMap_cons, List.filterMap_append, List.foldl_append]

/-- Best-move selection of `generate_successor` on the inputs on which no
    trial performs an out-of-range access: the returned allocation is the
    first kept trial, in enumeration order, that attains the maximum score
    when that maximum is above 0, and the input allocation otherwise. -/
theorem generate_successor_first_best (s : State) (d : InputData) (hs : catalog_shape d)
    (hwf : well_formed_allocation s d)
    (hdef : ∀ p ∈ moves s d, (trial s d (p.1 : Int) p.2).isSome = true) :
    ∃ r h, generate_successor s d = some r ∧ first_best (kept_trials s d) s 0 r h := by
  have hn : d.num_of_companies.toNat = d.bid_data.length := by
    rw [hs.1, Int.toNat_ofNat]
  have h1 : s.num_of_companies = (s.selected_bids_from_companies.length : Int) := by
    have := hwf.1; have := hwf.2.2.1; omega
  have h2 : s.num_of_coal_blocks = (s.allocated_coal_blocks.length : Int) := by
    have := hwf.2.1; have := hwf.2.2.2.1; omega
  have hout := generate_successor_outer_fold s d hs hwf d.bid_data.length 0 (s, 0) (by omega)
    (fun i hi p hp => hdef p (by
      unfold moves
      exact List.mem_flatMap.mpr ⟨i, hi, hp⟩))
  rw [Nat.cast_zero] at hout
  refine ⟨((kept_trials s d).foldl improve (s, 0)).1,
    ((kept_trials s d).foldl improve (s, 0)).2, ?_,
    foldl_improve_first_best (kept_trials s d) s 0⟩
  unfold generate_successor
  rw [create_copy_state_eq s h1 h2, hn]
  simp only [Option.bind_eq_bind, Option.some_bind, hout]
  rfl

/-- Scenario B meets the hypotheses of `generate_successor_first_best`. -/
theorem generate_successor_first_best_witness :
    ∃ r h, generate_successor scenario_B_state scenario_B_catalog = some r ∧
      first_best (kept_trials scenario_B_state scenario_B_catalog) scenario_B_state 0 r h :=
  generate_successor_first_best scenario_B_state scenario_B_catalog (by decide) (by decide)
    (by decide)

/-! ### The successor generator on the scenarios of the specification -/

/-- C4 (the code departs from the claim): Scenario A with company 1 holding
    its bid and company 2 holding none is a well-formed allocation of a
    well-formed catalog.  The only kept trial (company 1 to `no_bid`) scores
    0, so the claim returns the input allocation.  The trial of company 2 and
    candidate 0 evaluates `bid_data_dimensions[1][-1]` in the release loop,
    an out-of-range read, and `generate_successor` returns no state. -/
theorem generate_successor_scenario_A_out_of_range :
    well_formed_catalog scenario_A_catalog ∧
    well_formed_allocation scenario_A_state scenario_A_catalog ∧
    (trial scenario_A_state scenario_A_catalog 0 (-1)).isSome = true ∧
    bid_dim scenario_A_catalog 1 (-1) = none ∧
    trial scenario_A_state scenario_A_catalog 1 0 = none ∧
    generate_successor scenario_A_state scenario_A_catalog = none := by
  decide

/-- Over `overlap_catalog` both constructors run out of range:
    `find_initial_state` reads `bid[3]` of the record `[5, 1, 2]`, and
    `generate_successor`, from the conflict-free, occupancy-consistent
    allocation in which company 1 holds units 1 and 2 and company 2 holds
    none, evaluates `bid_data_dimensions[1][-1]`; neither returns a state. -/
theorem conflict_freedom_not_produced_on_overlap_catalog :
    well_formed_catalog overlap_catalog ∧
    find_initial_state overlap_catalog = none ∧
    well_formed_allocation overlap_state overlap_catalog ∧
    conflict_free overlap_state overlap_catalog ∧
    occupancy_consistent overlap_state overlap_catalog ∧
    generate_successor overlap_state overlap_catalog = none := by
  decide

/-- Over `single_bid_catalog` both constructors run out of range:
    `find_initial_state` reads `bid[2]` of the record `[5, 1]`, and
    `generate_successor`, from the allocation in which the company holds no
    bid, evaluates `bid_data_dimensions[0][-1]` in the trial of bid 0; neither
    returns a state. -/
theorem occupancy_consistency_not_produced_on_single_bid_catalog :
    find_initial_state single_bid_catalog = none ∧
    well_formed_allocation single_bid_empty_state single_bid_catalog ∧
    conflict_free single_bid_empty_state single_bid_catalog ∧
    occupancy_consistent single_bid_empty_state single_bid_catalog ∧
    trial single_bid_empty_state single_bid_catalog 0 0 = none ∧
    generate_successor single_bid_empty_state single_bid_catalog = none := by
  decide

/-- C7 (the code departs from the claim): in Scenario B with both bids
    selected (score 10) the successor drops the bid of company 1 and scores
    6: `h_max` starts at 0, not at the score of the current state. -/
theorem generate_successor_lowers_score_in_scenario_B :
    well_formed_catalog scenario_B_catalog ∧
    well_formed_allocation scenario_B_state scenario_B_catalog ∧
    conflict_free scenario_B_state scenario_B_catalog ∧
    occupancy_consistent scenario_B_state scenario_B_catalog ∧
    cost_heuristic scenario_B_state scenario_B_catalog = some 10 ∧
    (generate_successor scenario_B_state scenario_B_catalog).bind
      (fun s => cost_heuristic s scenario_B_catalog) = some 6 := by
  decide

/-- C8 (the code departs from the claim): in Scenario B with both bids
    selected the two trials of the neighbourhood score 6 and 4, none above
    the current 10, yet `generate_successor` returns the first of them
    instead of the input allocation. -/
theorem generate_successor_leaves_local_optimum_in_scenario_B :
    (trial scenario_B_state scenario_B_catalog 0 (-1)).bind
      (fun t => t.bind (fun s => cost_heuristic s scenario_B_catalog)) = some 6 ∧
    (trial scenario_B_state scenario_B_catalog 1 (-1)).bind
      (fun t => t.bind (fun s => cost_heuristic s scenario_B_catalog)) = some 4 ∧
    generate_successor scenario_B_state scenario_B_catalog
      = some { num_of_companies := 2
               num_of_coal_blocks := 2
               selected_bids_from_companies := [-1, 0]
               allocated_coal_blocks := [0, 1] } ∧
    generate_successor scenario_B_state scenario_B_catalog ≠ some scenario_B_state := by
  decide

/-- C9 (the code departs from the claim): over `small_value_catalog` with both
    first bids selected, moving company 1 to its bid 1 (`[2, 1]`) conflicts
    with nobody: after the release only unit 2 is occupied and
    `check_bid_collision` on the released occupancy accepts the bid.  The
    validity loop starts at entry 0, reads the value 2 as a unit identifier,
    finds unit 2 occupied and discards the move. -/
theorem validity_test_reads_value_as_unit :
    well_formed_catalog small_value_catalog ∧
    well_formed_allocation small_value_state small_value_catalog ∧
    conflict_free small_value_state small_value_catalog ∧
    occupancy_consistent small_value_state small_value_catalog ∧
    mark_loop small_value_catalog 0 0 0 1 1 [1, 1] = some [0, 1] ∧
    check_bid_collision [0, 1] [2, 1] 1 = some (1, [0, 1]) ∧
    (∀ u ∈ bid_units [2, 1], u ∉ selected_units small_value_state small_value_catalog 1) ∧
    validity_loop small_value_catalog 0 1 [0, 1] 2 0 = some 0 ∧
    trial small_value_state small_value_catalog 0 1 = some none := by
  decide

/-! ### The goal constructor `formulate_goal` -/

theorem formulate_goal_inner_spec (d : InputData) (hs : catalog_shape d) (i : Nat)
    (hnn : ∀ t < (bids_of d i).length, 0 ≤ bid_value ((bids_of d i).getD t [])) :
    ∀ (k j : Nat) (mx mi : Int), j + k = (bids_of d i).length →
      goal_inv (fun t => bid_value ((bids_of d i).getD t [])) j mx mi →
      ∃ mx1 mi1, formulate_goal_inner d (i : Int) k (j : Int) (mx, mi) = some (mx1, mi1) ∧
        goal_inv (fun t => bid_value ((bids_of d i).getD t [])) (bids_of d i).length mx1 mi1 := by
  intro k
  induction k with
  | zero =>
    intro j mx mi hj hinv
    have : j = (bids_of d i).length := by omega
    subst this
    exact ⟨mx, mi, rfl, hinv⟩
  | succ k ih =>
    intro j mx mi hj hinv
    have hcast : ((j : Int) + 1) = ((j + 1 : Nat) : Int) := by push_cast; rfl
    have hv := catalog_shape_bid_value d hs i j (by omega)
    obtain ⟨hA, m, hm, hB, hC⟩ := hinv
    simp only [formulate_goal_inner, hv, Option.bind_eq_bind, Option.some_bind, hcast]
    by_cases hgt : bid_value ((bids_of d i).getD j []) > mx
    · rw [if_pos hgt]
      apply ih (j + 1) _ _ (by omega)
      refine ⟨?_, j, rfl, ?_, Or.inr ⟨by omega, rfl⟩⟩
      · intro t ht
        by_cases htj : t = j
        · subst htj; exact le_refl _
        · exact le_of_lt (lt_of_le_of_lt (hA t (by omega)) hgt)
      · intro t ht
        exact lt_of_le_of_lt (hA t ht) hgt
    · rw [if_neg hgt]
      apply ih (j + 1) _ _ (by omega)
      have hle : bid_value ((bids_of d i).getD j []) ≤ mx := not_lt.mp hgt
      refine ⟨?_, m, hm, hB, ?_⟩
      · intro t ht
        by_cases htj : t = j
        · subst htj; exact hle
        · exact hA t (by omega)
      · rcases hC with ⟨hj0, hm0, hmx0⟩ | ⟨hmj, hval⟩
        · right
          subst hj0; subst hm0
          refine ⟨by omega, ?_⟩
          have h0 := hnn 0 (by omega)
          rw [hmx0] at hle ⊢
          exact le_antisymm hle h0
        · right; exact ⟨by omega, hval⟩

theorem formulate_goal_loop_spec (d : InputData) (hs : catalog_shape d)
    (hnn : values_nonneg d) :
    ∀ (k i : Nat) (sel : List Int), i + k = d.bid_data.length →
      sel.length = d.bid_data.length →
      ∃ sel1, formulate_goal_loop d k (i : Int) sel = some sel1 ∧
        sel1.length = d.bid_data.length ∧
        (∀ t < i, sel1.getD t 0 = sel.getD t 0) ∧
        (∀ t, i ≤ t → t < d.bid_data.length → goal_selection_ok d t (sel1.getD t 0)) := by
  intro k
  induction k with
  | zero =>
    intro i sel hi hl
    exact ⟨sel, rfl, hl, fun _ _ => rfl, fun t h1 h2 => by omega⟩
  | succ k ih =>
    intro i sel hi hl
    have hilt : i < d.bid_data.length := by omega
    have hcast : ((i : Int) + 1) = ((i + 1 : Nat) : Int) := by push_cast; rfl
    have hcnt := catalog_shape_count d hs i hilt
    have hval : ∀ t < (bids_of d i).length, 0 ≤ bid_value ((bids_of d i).getD t []) :=
      fun t ht => hnn i (List.mem_range.mpr hilt) _ (getD_mem _ t [] ht)
    obtain ⟨mx1, mi1, hin, hA, m, hm, hB, hC⟩ :=
      formulate_goal_inner_spec d hs i hval (bids_of d i).length 0 0 0 (by omega)
        ⟨fun t ht => by omega, 0, rfl, fun t ht => by omega, Or.inl ⟨rfl, rfl, rfl⟩⟩
    rw [Nat.cast_zero] at hin
    obtain ⟨sel1, hrun, hlen1, hpre, hpost⟩ := ih (i + 1)
      (sel.set i (if ((bids_of d i).length : Int) ≠ 0 then mi1 else no_bid))
      (by omega) (by simpa using hl)
    refine ⟨sel1, ?_, hlen1, ?_, ?_⟩
    · simp only [formulate_goal_loop, hcnt, Option.bind_eq_bind, Option.some_bind,
        Int.toNat_ofNat, hin, hcast]
      rw [wr_natCast sel i _ (by omega)]
      exact hrun
    · intro t ht
      rw [hpre t (by omega), getD_set_ne _ _ _ _ _ (by omega)]
    · intro t hit htn
      by_cases hti : t = i
      · subst hti
        rw [hpre t (by omega), getD_set_eq _ _ _ _ (by omega)]
        unfold goal_selection_ok
        by_cases he : bids_of d t = []
        · simp [he]
        · have hpos : 0 < (bids_of d t).length := List.length_pos.mpr he
          have hne : ((bids_of d t).length : Int) ≠ 0 := by omega
          rw [if_neg he, if_pos hne]
          rcases hC with ⟨h0, _, _⟩ | ⟨hmlt, hvm⟩
          · omega
          · subst hm
            rw [Int.toNat_ofNat]
            refine ⟨by omega, hmlt, ?_, ?_⟩
            · intro u hu
              have := hA u (List.mem_range.mp hu)
              simp only [← hvm] at this
              exact this
            · intro u hu
              have := hB u (List.mem_range.mp hu)
              simp only [← hvm] at this
              exact this
      · exact hpost t (by omega) htn

/-- C10: on a catalog laid out as `take_input` builds it and whose bid values
    are non-negative, `formulate_goal` returns a state in which every company
    with at least one bid is assigned the lowest index among its bids of
    maximum value, whatever units the bids of other companies hold, and
    every company without a bid is assigned `no_bid`. -/
theorem formulate_goal_selects_first_maximum (input_data : InputData)
    (hshape : catalog_shape input_data) (hvalues : values_nonneg input_data) :
    ∃ goal_state, formulate_goal input_data = some goal_state ∧
      goal_state.selected_bids_from_companies.length = input_data.bid_data.length ∧
      ∀ i ∈ List.range input_data.bid_data.length,
        goal_selection_ok input_data i (goal_state.selected_bids_from_companies.getD i 0) := by
  have hn : input_data.num_of_companies.toNat = input_data.bid_data.length := by
    rw [hshape.1, Int.toNat_ofNat]
  obtain ⟨sel1, hrun, hlen, _, hpost⟩ :=
    formulate_goal_loop_spec input_data hshape hvalues input_data.bid_data.length 0
      (List.replicate input_data.bid_data.length 0) (by omega) (by simp)
  rw [Nat.cast_zero] at hrun
  refine ⟨{ num_of_companies := input_data.num_of_companies
            num_of_coal_blocks := input_data.num_of_coal_blocks
            selected_bids_from_companies := sel1
            allocated_coal_blocks :=
              List.replicate input_data.num_of_coal_blocks.toNat 1 }, ?_, hlen,
    fun i hi => hpost i (by omega) (List.mem_range.mp hi)⟩
  unfold formulate_goal
  rw [hn, hrun]
  rfl

/-- Witness for C10 on the catalog of Scenario B. -/
theorem formulate_goal_selects_first_maximum_witness :
    catalog_shape scenario_B_catalog ∧ values_nonneg scenario_B_catalog ∧
    ∃ goal_state, formulate_goal scenario_B_catalog = some goal_state ∧
      goal_state.selected_bids_from_companies.length
        = scenario_B_catalog.bid_data.length ∧
      ∀ i ∈ List.range scenario_B_catalog.bid_data.length,
        goal_selection_ok scenario_B_catalog i
          (goal_state.selected_bids_from_companies.getD i 0) :=
  ⟨by decide, by decide,
   formulate_goal_selects_first_maximum scenario_B_catalog (by decide) (by decide)⟩
/-! ### The goal bound -/

/-- The score of an allocation with one in-range selection per company is the
    sum of the selected values reduced into the `int` range. -/
theorem cost_heuristic_of_selections_in_range (s : State) (d : InputData)
    (hs : catalog_shape d) (hsel : selections_in_range s d) :
    cost_heuristic s d
      = some (wrap_int (((List.range d.bid_data.length).map (selected_value s d)).sum)) := by
  obtain ⟨w1, w3, w5⟩ := hsel
  have hn := hs.1
  have hlen : s.selected_bids_from_companies.length = d.bid_data.length := by omega
  have hv : ∀ i ∈ List.range s.selected_bids_from_companies.length,
      valid_selection d i (s.selected_bids_from_companies.getD i no_bid) := by
    intro i hi
    rcases w5 i hi with h | ⟨h0, h1⟩
    · exact Or.inl h
    · right
      obtain ⟨c, hc⟩ := Int.eq_ofNat_of_zero_le h0
      rw [hc] at h1 ⊢
      rw [catalog_shape_bid_value d hs i c (by exact_mod_cast h1)]
      rfl
  have hnc : s.num_of_companies.toNat = s.selected_bids_from_companies.length := by omega
  have := cost_heuristic_loop_sum s d hv s.selected_bids_from_companies.length 0 0 (by omega)
    (by decide) (by decide)
  rw [Nat.cast_zero, zero_add, ← List.range_eq_range', hlen] at this
  unfold cost_heuristic
  rw [hnc, hlen]
  exact this

/-- The value a company adds under an in-range selection is at most the value
    it adds under the selection of the goal constructor. -/
theorem selected_value_le_goal (s g : State) (d : InputData) (hs : catalog_shape d)
    (hnn : values_nonneg d) (i : Nat) (hi : i < d.bid_data.length)
    (hsi : s.selected_bids_from_companies.getD i no_bid = no_bid ∨
      (0 ≤ s.selected_bids_from_companies.getD i no_bid ∧
       s.selected_bids_from_companies.getD i no_bid < ((bids_of d i).length : Int)))
    (hgi : goal_selection_ok d i (g.selected_bids_from_companies.getD i no_bid)) :
    selected_value s d i ≤ selected_value g d i := by
  unfold goal_selection_ok at hgi
  -- the contribution of the goal selection is non-negative
  have hg0 : 0 ≤ selected_value g d i ∧
      (∀ c : Nat, c < (bids_of d i).length →
        bid_value ((bids_of d i).getD c []) ≤ selected_value g d i) := by
    by_cases he : bids_of d i = []
    · rw [if_pos he] at hgi
      have : selected_value g d i = 0 := by
        simp only [selected_value, hgi, if_true]
      rw [this]
      exact ⟨le_refl _, fun c hc => by rw [he] at hc; exact absurd hc (by simp)⟩
    · rw [if_neg he] at hgi
      obtain ⟨g0, g1, gmax, _⟩ := hgi
      obtain ⟨m, hm⟩ := Int.eq_ofNat_of_zero_le g0
      rw [hm, Int.toNat_ofNat] at g1 gmax
      have hne : ((m : Int) = no_bid) = False := by
        unfold no_bid; simp
      have : selected_value g d i = bid_value ((bids_of d i).getD m []) := by
        simp only [selected_value, hm, hne, if_false, catalog_shape_bid_value d hs i m g1,
          Option.getD_some]
      rw [this]
      exact ⟨hnn i (List.mem_range.mpr hi) _ (getD_mem _ m [] g1),
        fun c hc => gmax c (List.mem_range.mpr hc)⟩
  rcases hsi with h | ⟨h0, h1⟩
  · have : selected_value s d i = 0 := by
      simp only [selected_value, h, if_true]
    rw [this]; exact hg0.1
  · obtain ⟨c, hc⟩ := Int.eq_ofNat_of_zero_le h0
    rw [hc] at h1
    have hclt : c < (bids_of d i).length := by exact_mod_cast h1
    have hne : ((c : Int) = no_bid) = False := by
      unfold no_bid; simp
    have : selected_value s d i = bid_value ((bids_of d i).getD c []) := by
      simp only [selected_value, hc, hne, if_false, catalog_shape_bid_value d hs i c hclt,
        Option.getD_some]
    rw [this]
    exact hg0.2 c hclt

theorem le_foldr_max (l : List Int) (x : Int) (h : x ∈ l) : x ≤ l.foldr max 0 := by
  induction l with
  | nil => exact absurd h (by simp)
  | cons y l ih =>
    rw [List.foldr_cons]
    rcases List.mem_cons.mp h with h1 | h1
    · rw [h1]; exact le_max_left _ _
    · exact le_trans (ih h1) (le_max_right _ _)

theorem foldr_max_nonneg (l : List Int) : 0 ≤ l.foldr max 0 := by
  induction l with
  | nil => exact le_refl _
  | cons y l ih =>
    rw [List.foldr_cons]
    exact le_trans ih (le_max_right _ _)

/-- The value a company adds under an in-range selection is non-negative and
    at most the greatest bid value of the company. -/
theorem selected_value_bounds (s : State) (d : InputData) (hs : catalog_shape d)
    (hnn : values_nonneg d) (i : Nat) (hi : i < d.bid_data.length)
    (hsi : s.selected_bids_from_companies.getD i no_bid = no_bid ∨
      (0 ≤ s.selected_bids_from_companies.getD i no_bid ∧
       s.selected_bids_from_companies.getD i no_bid < ((bids_of d i).length : Int))) :
    0 ≤ selected_value s d i ∧ selected_value s d i ≤ max_bid_value d i := by
  rcases hsi with h | ⟨h0, h1⟩
  · have : selected_value s d i = 0 := by
      simp only [selected_value, h, if_true]
    rw [this]
    exact ⟨le_refl _, foldr_max_nonneg _⟩
  · obtain ⟨c, hc⟩ := Int.eq_ofNat_of_zero_le h0
    rw [hc] at h1
    have hclt : c < (bids_of d i).length := by exact_mod_cast h1
    have hne : ((c : Int) = no_bid) = False := by
      unfold no_bid; simp
    have : selected_value s d i = bid_value ((bids_of d i).getD c []) := by
      simp only [selected_value, hc, hne, if_false, catalog_shape_bid_value d hs i c hclt,
        Option.getD_some]
    rw [this]
    have hmem := getD_mem (bids_of d i) c [] hclt
    exact ⟨hnn i (List.mem_range.mpr hi) _ hmem,
      le_foldr_max _ _ (List.mem_map.mpr ⟨_, hmem, rfl⟩)⟩

theorem sum_map_nonneg (l : List Nat) (f : Nat → Int) (h : ∀ i ∈ l, 0 ≤ f i) :
    0 ≤ (l.map f).sum := by
  induction l with
  | nil => simp
  | cons x l ih =>
    rw [List.map_cons, List.sum_cons]
    have h1 := h x (List.mem_cons_self _ _)
    have h2 := ih (fun i hi => h i (List.mem_cons_of_mem _ hi))
    omega

/-- C11 as stated fails: over `large_value_catalog`, whose values are
    non-negative, the allocation in which only company 1 holds its bid has
    in-range selections and scores 2147483647, while the `int` total of the
    state returned by `formulate_goal` (both bids) is -2147483648. -/
theorem goal_score_wraps_below_allocation_score :
    catalog_shape large_value_catalog ∧ values_nonneg large_value_catalog ∧
    selections_in_range large_value_first_state large_value_catalog ∧
    cost_heuristic large_value_first_state large_value_catalog = some 2147483647 ∧
    formulate_goal large_value_catalog = some large_value_state ∧
    cost_heuristic large_value_state large_value_catalog = some (-2147483648) := by
  decide

/-- C11 (amended): on a catalog laid out as `take_input` builds it whose bid
    values are non-negative and whose goal bound, the sum over the companies
    of their greatest bid value, lies in the range of a 32-bit `int`, the
    score of every allocation in which each selection is `no_bid` or a bid
    index of its company is at most the score of the state returned by
    `formulate_goal`; both scores and the goal state are defined. -/
theorem cost_heuristic_le_goal_bound (state : State) (input_data : InputData)
    (hshape : catalog_shape input_data) (hvalues : values_nonneg input_data)
    (hbound : goal_bound input_data ≤ int_max)
    (hsel : selections_in_range state input_data) :
    ∃ goal_state h hgoal, formulate_goal input_data = some goal_state ∧
      cost_heuristic state input_data = some h ∧
      cost_heuristic goal_state input_data = some hgoal ∧ h ≤ hgoal := by
  have hn : input_data.num_of_companies.toNat = input_data.bid_data.length := by
    rw [hshape.1, Int.toNat_ofNat]
  obtain ⟨sel1, hrun, hlen, _, hpost⟩ :=
    formulate_goal_loop_spec input_data hshape hvalues input_data.bid_data.length 0
      (List.replicate input_data.bid_data.length 0) (by omega) (by simp)
  rw [Nat.cast_zero] at hrun
  have hgoal : formulate_goal input_data
      = some { num_of_companies := input_data.num_of_companies
               num_of_coal_blocks := input_data.num_of_coal_blocks
               selected_bids_from_companies := sel1
               allocated_coal_blocks :=
                 List.replicate input_data.num_of_coal_blocks.toNat 1 } := by
    unfold formulate_goal
    rw [hn, hrun]
    rfl
  have hgok : ∀ i, i < input_data.bid_data.length →
      goal_selection_ok input_data i (sel1.getD i no_bid) := by
    intro i hi
    have := hpost i (by omega) hi
    have e : sel1.getD i no_bid = sel1.getD i 0 := by
      simp [List.getD, List.getElem?_eq_getElem (show i < sel1.length by omega)]
    rw [e]; exact this
  have hgsel : selections_in_range
      { num_of_companies := input_data.num_of_companies
        num_of_coal_blocks := input_data.num_of_coal_blocks
        selected_bids_from_companies := sel1
        allocated_coal_blocks := List.replicate input_data.num_of_coal_blocks.toNat 1 }
      input_data := by
    refine ⟨rfl, by simp only; rw [hlen]; exact hshape.1.symm, ?_⟩
    intro i hi
    simp only at hi ⊢
    rw [hlen] at hi
    have := hgok i (List.mem_range.mp hi)
    unfold goal_selection_ok at this
    by_cases he : bids_of input_data i = []
    · rw [if_pos he] at this; exact Or.inl this
    · rw [if_neg he] at this
      exact Or.inr ⟨this.1, by have := this.2.1; omega⟩
  have hslen : state.selected_bids_from_companies.length = input_data.bid_data.length := by
    have := hsel.2.1; have := hshape.1; omega
  -- the exact sums: 0 ≤ sum of the allocation ≤ sum of the goal ≤ goal bound
  have hle : ((List.range input_data.bid_data.length).map
        (selected_value state input_data)).sum
      ≤ ((List.range input_data.bid_data.length).map
        (selected_value
          { num_of_companies := input_data.num_of_companies
            num_of_coal_blocks := input_data.num_of_coal_blocks
            selected_bids_from_companies := sel1
            allocated_coal_blocks := List.replicate input_data.num_of_coal_blocks.toNat 1 }
          input_data)).sum := by
    apply List.sum_le_sum
    intro i hi
    have hilt := List.mem_range.mp hi
    exact selected_value_le_goal state _ input_data hshape hvalues i hilt
      (hsel.2.2 i (List.mem_range.mpr (by omega))) (hgok i hilt)
  have hs0 : 0 ≤ ((List.range input_data.bid_data.length).map
        (selected_value state input_data)).sum :=
    sum_map_nonneg _ _ (fun i hi =>
      (selected_value_bounds state input_data hshape hvalues i (List.mem_range.mp hi)
        (hsel.2.2 i (List.mem_range.mpr (by have := List.mem_range.mp hi; omega)))).1)
  have hgb : ((List.range input_data.bid_data.length).map
        (selected_value
          { num_of_companies := input_data.num_of_companies
            num_of_coal_blocks := input_data.num_of_coal_blocks
            selected_bids_from_companies := sel1
            allocated_coal_blocks := List.replicate input_data.num_of_coal_blocks.toNat 1 }
          input_data)).sum ≤ goal_bound input_data := by
    unfold goal_bound
    apply List.sum_le_sum
    intro i hi
    have hilt := List.mem_range.mp hi
    exact (selected_value_bounds _ input_data hshape hvalues i hilt
      (hgsel.2.2 i (List.mem_range.mpr (by simp only; omega)))).2
  have hmin : int_min ≤ 0 := by decide
  refine ⟨_, _, _, hgoal,
    cost_heuristic_of_selections_in_range state input_data hshape hsel,
    cost_heuristic_of_selections_in_range _ input_data hshape hgsel, ?_⟩
  rw [wrap_int_of_in_range _ (by omega) (by omega),
    wrap_int_of_in_range _ (by omega) (by omega)]
  exact hle

/-- Witness for C11: Scenario A with company 1 holding its bid scores 5, the
    goal state scores 8. -/
theorem cost_heuristic_le_goal_bound_witness :
    catalog_shape scenario_A_catalog ∧ values_nonneg scenario_A_catalog ∧
    goal_bound scenario_A_catalog ≤ int_max ∧
    selections_in_range scenario_A_state scenario_A_catalog ∧
    ∃ goal_state h hgoal, formulate_goal scenario_A_catalog = some goal_state ∧
      cost_heuristic scenario_A_state scenario_A_catalog = some h ∧
      cost_heuristic goal_state scenario_A_catalog = some hgoal ∧ h ≤ hgoal :=
  ⟨by decide, by decide, by decide, by decide,
   cost_heuristic_le_goal_bound scenario_A_state scenario_A_catalog (by decide) (by decide)
     (by decide) (by decide)⟩

/-! ### The goal test `is_goal_state` -/

theorem is_goal_state_loop_spec (s g : State)
    (hg : g.allocated_coal_blocks.length = s.allocated_coal_blocks.length) :
    ∀ (k i : Nat), i + k = s.allocated_coal_blocks.length →
      ∃ r, is_goal_state_loop s g k (i : Int) = some r ∧ (r = 1 ∨ r = 0) ∧
        (r = 1 ↔ ∀ b ∈ List.range' i k,
          s.allocated_coal_blocks.getD b 0 = g.allocated_coal_blocks.getD b 0) := by
  intro k
  induction k with
  | zero => intro i _; exact ⟨1, rfl, Or.inl rfl, by simp⟩
  | succ k ih =>
    intro i hik
    have hcast : ((i : Int) + 1) = ((i + 1 : Nat) : Int) := by push_cast; rfl
    have ha := rd_getD s.allocated_coal_blocks i 0 (by omega)
    have hb := rd_getD g.allocated_coal_blocks i 0 (by omega)
    obtain ⟨r, hr, hr01, hiff⟩ := ih (i + 1) (by omega)
    by_cases hne : s.allocated_coal_blocks.getD i 0 ≠ g.allocated_coal_blocks.getD i 0
    · refine ⟨0, ?_, Or.inr rfl, ?_⟩
      · simp only [is_goal_state_loop, ha, hb, Option.bind_eq_bind, Option.some_bind,
          if_pos hne]
      · constructor
        · intro h; exact absurd h (by decide)
        · intro h; exact absurd (h i (by simp [List.mem_range'_1])) hne
    · refine ⟨r, ?_, hr01, ?_⟩
      · simp only [is_goal_state_loop, ha, hb, Option.bind_eq_bind, Option.some_bind,
          if_neg hne, hcast]
        exact hr
      · rw [hiff]
        constructor
        · intro h b hb1
          simp only [List.mem_range'_1] at hb1
          by_cases hbi : b = i
          · subst hbi; exact not_not.mp hne
          · exact h b (by simp only [List.mem_range'_1]; omega)
        · intro h b hb1
          simp only [List.mem_range'_1] at hb1
          exact h b (by simp only [List.mem_range'_1]; omega)

/-- C16: for two states with the same number of units, `is_goal_state` returns
    `true` (1) exactly when the two occupancy arrays agree at every unit
    index and `false` (0) otherwise; replacing the selected bids of either
    state does not change the result. -/
theorem is_goal_state_iff_occupancy_agrees (state goal_state : State)
    (hunits : state.num_of_coal_blocks = (state.allocated_coal_blocks.length : Int))
    (hsame : goal_state.allocated_coal_blocks.length = state.allocated_coal_blocks.length) :
    (∃ r, is_goal_state state goal_state = some r ∧ (r = 1 ∨ r = 0) ∧
      (r = 1 ↔ ∀ b ∈ List.range state.allocated_coal_blocks.length,
        state.allocated_coal_blocks.getD b 0 = goal_state.allocated_coal_blocks.getD b 0)) ∧
    ∀ (n1 n2 : Int) (sel1 sel2 : List Int),
      is_goal_state
          { state with num_of_companies := n1, selected_bids_from_companies := sel1 }
          { goal_state with num_of_companies := n2, selected_bids_from_companies := sel2 }
        = is_goal_state state goal_state := by
  constructor
  · unfold is_goal_state
    rw [hunits, Int.toNat_ofNat]
    have := is_goal_state_loop_spec state goal_state hsame
      state.allocated_coal_blocks.length 0 (by omega)
    simpa [List.range_eq_range'] using this
  · intro n1 n2 sel1 sel2
    unfold is_goal_state
    simp only
    generalize state.num_of_coal_blocks.toNat = k
    generalize (0 : Int) = i
    induction k generalizing i with
    | zero => rfl
    | succ k ih =>
      simp only [is_goal_state_loop, Option.bind_eq_bind]
      rw [ih (i + 1)]

/-- Witness for C16: occupancies `[1, 0]` and `[1, 1]` differ at unit 2. -/
theorem is_goal_state_iff_occupancy_agrees_witness :
    (∃ r, is_goal_state
            { num_of_companies := 2, num_of_coal_blocks := 2,
              selected_bids_from_companies := [0, -1], allocated_coal_blocks := [1, 0] }
            scenario_B_state = some r ∧ (r = 1 ∨ r = 0) ∧
      (r = 1 ↔ ∀ b ∈ List.range 2,
        ([1, 0] : List Int).getD b 0 = scenario_B_state.allocated_coal_blocks.getD b 0)) ∧
    ∀ (n1 n2 : Int) (sel1 sel2 : List Int),
      is_goal_state
          { num_of_companies := n1, num_of_coal_blocks := 2,
            selected_bids_from_companies := sel1, allocated_coal_blocks := [1, 0] }
          { scenario_B_state with num_of_companies := n2,
                                  selected_bids_from_companies := sel2 }
        = is_goal_state
            { num_of_companies := 2, num_of_coal_blocks := 2,
              selected_bids_from_companies := [0, -1], allocated_coal_blocks := [1, 0] }
            scenario_B_state :=
  is_goal_state_iff_occupancy_agrees
    { num_of_companies := 2, num_of_coal_blocks := 2,
      selected_bids_from_companies := [0, -1], allocated_coal_blocks := [1, 0] }
    scenario_B_state (by decide) (by decide)
/-! ### The occupancy of the goal marker -/

theorem formulate_goal_inner_defined (d : InputData) (hs : catalog_shape d) (i : Nat) :
    ∀ (k j : Nat) (acc : Int × Int), j + k = (bids_of d i).length →
      ∃ r, formulate_goal_inner d (i : Int) k (j : Int) acc = some r := by
  intro k
  induction k with
  | zero => intro j acc _; exact ⟨acc, rfl⟩
  | succ k ih =>
    intro j acc hj
    have hcast : ((j : Int) + 1) = ((j + 1 : Nat) : Int) := by push_cast; rfl
    have hv := catalog_shape_bid_value d hs i j (by omega)
    simp only [formulate_goal_inner, hv, Option.bind_eq_bind, Option.some_bind, hcast]
    split
    · exact ih (j + 1) _ (by omega)
    · exact ih (j + 1) _ (by omega)

theorem formulate_goal_loop_defined (d : InputData) (hs : catalog_shape d) :
    ∀ (k i : Nat) (sel : List Int), i + k = d.bid_data.length →
      sel.length = d.bid_data.length →
      ∃ sel1, formulate_goal_loop d k (i : Int) sel = some sel1 := by
  intro k
  induction k with
  | zero => intro i sel _ _; exact ⟨sel, rfl⟩
  | succ k ih =>
    intro i sel hi hl
    have hilt : i < d.bid_data.length := by omega
    have hcast : ((i : Int) + 1) = ((i + 1 : Nat) : Int) := by push_cast; rfl
    obtain ⟨r, hr⟩ := formulate_goal_inner_defined d hs i (bids_of d i).length 0 (0, 0)
      (by omega)
    rw [Nat.cast_zero] at hr
    simp only [formulate_goal_loop, catalog_shape_count d hs i hilt, Option.bind_eq_bind,
      Option.some_bind, Int.toNat_ofNat, hr, hcast]
    rw [wr_natCast sel i _ (by omega)]
    exact ih (i + 1) _ (by omega) (by simpa using hl)

/-- C18: on a catalog laid out as `take_input` builds it, `formulate_goal`
    returns a state whose occupancy array marks every one of the
    `num_of_coal_blocks` units allocated, whatever the bids it selects; hence
    for every state with the same number of units `is_goal_state` against the
    goal state returns `true` (1) exactly when every unit of the state is
    marked allocated, and `false` (0) otherwise. -/
theorem formulate_goal_marks_every_unit (input_data : InputData)
    (hshape : catalog_shape input_data) :
    ∃ goal_state, formulate_goal input_data = some goal_state ∧
      goal_state.num_of_coal_blocks = input_data.num_of_coal_blocks ∧
      goal_state.allocated_coal_blocks
        = List.replicate input_data.num_of_coal_blocks.toNat 1 ∧
      ∀ state : State, state.num_of_coal_blocks = input_data.num_of_coal_blocks →
        (state.allocated_coal_blocks.length : Int) = input_data.num_of_coal_blocks →
        ∃ r, is_goal_state state goal_state = some r ∧ (r = 1 ∨ r = 0) ∧
          (r = 1 ↔ ∀ b ∈ List.range state.allocated_coal_blocks.length,
            state.allocated_coal_blocks.getD b 0 = 1) := by
  have hn : input_data.num_of_companies.toNat = input_data.bid_data.length := by
    rw [hshape.1, Int.toNat_ofNat]
  obtain ⟨sel1, hrun⟩ := formulate_goal_loop_defined input_data hshape
    input_data.bid_data.length 0 (List.replicate input_data.bid_data.length 0) (by omega)
    (by simp)
  rw [Nat.cast_zero] at hrun
  refine ⟨{ num_of_companies := input_data.num_of_companies
            num_of_coal_blocks := input_data.num_of_coal_blocks
            selected_bids_from_companies := sel1
            allocated_coal_blocks :=
              List.replicate input_data.num_of_coal_blocks.toNat 1 }, ?_, rfl, rfl, ?_⟩
  · unfold formulate_goal
    rw [hn, hrun]
    rfl
  · intro state h1 h2
    have hN := hshape.2.2.2.1
    have hlen : (List.replicate input_data.num_of_coal_blocks.toNat (1 : Int)).length
        = state.allocated_coal_blocks.length := by
      rw [List.length_replicate]; omega
    obtain ⟨r, hr, hr01, hiff⟩ := is_goal_state_loop_spec state
      { num_of_companies := input_data.num_of_companies
        num_of_coal_blocks := input_data.num_of_coal_blocks
        selected_bids_from_companies := sel1
        allocated_coal_blocks := List.replicate input_data.num_of_coal_blocks.toNat 1 }
      hlen state.allocated_coal_blocks.length 0 (by omega)
    rw [Nat.cast_zero] at hr
    have hk : state.num_of_coal_blocks.toNat = state.allocated_coal_blocks.length := by omega
    refine ⟨r, by unfold is_goal_state; rw [hk]; exact hr, hr01, ?_⟩
    rw [hiff, ← List.range_eq_range']
    constructor
    · intro h b hb
      have hb1 : b < input_data.num_of_coal_blocks.toNat := by
        have := List.mem_range.mp hb; omega
      rw [h b hb]
      simp [List.getD, List.getElem?_replicate, hb1]
    · intro h b hb
      have hb1 : b < input_data.num_of_coal_blocks.toNat := by
        have := List.mem_range.mp hb; omega
      rw [h b hb]
      simp [List.getD, List.getElem?_replicate, hb1]

/-- Witness for C18 on the catalog of Scenario B. -/
theorem formulate_goal_marks_every_unit_witness :
    catalog_shape scenario_B_catalog ∧
    ∃ goal_state, formulate_goal scenario_B_catalog = some goal_state ∧
      goal_state.num_of_coal_blocks = scenario_B_catalog.num_of_coal_blocks ∧
      goal_state.allocated_coal_blocks
        = List.replicate scenario_B_catalog.num_of_coal_blocks.toNat 1 ∧
      ∀ state : State, state.num_of_coal_blocks = scenario_B_catalog.num_of_coal_blocks →
        (state.allocated_coal_blocks.length : Int) = scenario_B_catalog.num_of_coal_blocks →
        ∃ r, is_goal_state state goal_state = some r ∧ (r = 1 ∨ r = 0) ∧
          (r = 1 ↔ ∀ b ∈ List.range state.allocated_coal_blocks.length,
            state.allocated_coal_blocks.getD b 0 = 1) :=
  ⟨by decide, formulate_goal_marks_every_unit scenario_B_catalog (by decide)⟩
/-! ### The permutation printer `permute` -/

theorem eq_of_getD_eq (a b : List Int) (hl : a.length = b.length)
    (h : ∀ t, a.getD t 0 = b.getD t 0) : a = b := by
  apply List.ext_getElem hl
  intro t h1 h2
  have e1 : a.getD t 0 = a[t] := by
    simp [List.getD, List.getElem?_eq_getElem h1]
  have e2 : b.getD t 0 = b[t] := by
    simp [List.getD, List.getElem?_eq_getElem h2]
  rw [← e1, ← e2]
  exact h t

theorem swap_natCast (a : List Int) (x y : Nat) (hx : x < a.length) (hy : y < a.length) :
    swap a (x : Int) (y : Int) = some ((a.set x (a.getD y 0)).set y (a.getD x 0)) := by
  unfold swap
  rw [rd_getD a x 0 hx, rd_getD a y 0 hy]
  simp only [Option.bind_eq_bind, Option.some_bind]
  rw [wr_natCast a x _ hx]
  simp only [Option.some_bind]
  rw [wr_natCast _ y _ (by simpa using hy)]

/-- Swapping the same two cells twice restores the array. -/
theorem swap_swap (a : List Int) (x y : Nat) (hx : x < a.length) (hy : y < a.length) :
    ((a.set x (a.getD y 0)).set y (a.getD x 0)).length = a.length ∧
    swap ((a.set x (a.getD y 0)).set y (a.getD x 0)) (x : Int) (y : Int) = some a := by
  have hlen : ((a.set x (a.getD y 0)).set y (a.getD x 0)).length = a.length := by simp
  refine ⟨hlen, ?_⟩
  rw [swap_natCast _ x y (by omega) (by omega)]
  congr 1
  apply eq_of_getD_eq _ _ (by simp)
  intro t
  have hgx : ((a.set x (a.getD y 0)).set y (a.getD x 0)).getD x 0 = a.getD y 0 := by
    by_cases hxy : y = x
    · subst hxy; rw [getD_set_eq _ _ _ _ (by simpa using hy)]
    · rw [getD_set_ne _ _ _ _ _ hxy, getD_set_eq _ _ _ _ hx]
  have hgy : ((a.set x (a.getD y 0)).set y (a.getD x 0)).getD y 0 = a.getD x 0 :=
    getD_set_eq _ _ _ _ (by simpa using hy)
  rw [hgx, hgy]
  by_cases hty : y = t
  · subst hty
    rw [getD_set_eq _ _ _ _ (by simpa using hy)]
  · rw [getD_set_ne _ _ _ _ _ hty]
    by_cases htx : x = t
    · subst htx
      rw [getD_set_eq _ _ _ _ (by simpa using hx)]
    · rw [getD_set_ne _ _ _ _ _ htx, getD_set_ne _ _ _ _ _ hty, getD_set_ne _ _ _ _ _ htx]

/-- The loop of `permute` around a recursive call that restores the array and
    prints `f` lines restores the array and prints `k * f` lines. -/
theorem permute_loop_spec (call : List Int → List Int → Option (List Int × List Int))
    (len f l : Nat)
    (hcall : ∀ (a1 out1 : List Int), a1.length = len →
      ∃ lines, call a1 out1 = some (a1, out1 ++ lines) ∧ lines.length = f) :
    ∀ (k i : Nat) (a out : List Int), a.length = len → l < len → i + k ≤ len →
      ∃ lines, permute_loop call (l : Int) k (i : Int) a out = some (a, out ++ lines) ∧
        lines.length = k * f := by
  intro k
  induction k with
  | zero =>
    intro i a out _ _ _
    exact ⟨[], by simp [permute_loop], by simp⟩
  | succ k ih =>
    intro i a out ha hl hik
    have hcast : ((i : Int) + 1) = ((i + 1 : Nat) : Int) := by push_cast; rfl
    have h1 := swap_natCast a l i (by omega) (by omega)
    obtain ⟨hlen1, hback⟩ := swap_swap a l i (by omega) (by omega)
    obtain ⟨lines1, hc, hf⟩ := hcall ((a.set l (a.getD i 0)).set i (a.getD l 0)) out
      (by omega)
    obtain ⟨lines2, hrest, hk⟩ := ih (i + 1) a (out ++ lines1) ha hl (by omega)
    refine ⟨lines1 ++ lines2, ?_, ?_⟩
    · simp only [permute_loop, h1, hc, hback, Option.bind_eq_bind, Option.some_bind, hcast]
      rw [hrest, List.append_assoc]
    · rw [List.length_append, hf, hk]; ring

/-- With fuel for the depth of the recursion, `permute` on a segment `l..r`
    inside the array restores the array and prints `(r - l + 1)!` lines. -/
theorem permute_spec :
    ∀ (n fuel l r : Nat) (a out : List Int), r = l + n → r < a.length → n + 1 ≤ fuel →
      ∃ lines, permute fuel a (l : Int) (r : Int) out = some (a, out ++ lines) ∧
        lines.length = (n + 1).factorial := by
  intro n
  induction n with
  | zero =>
    intro fuel l r a out hr hlen hfuel
    obtain ⟨f, rfl⟩ : ∃ f, fuel = f + 1 := ⟨fuel - 1, by omega⟩
    have hlr : (l : Int) = (r : Int) := by omega
    have h0 := rd_getD a 0 0 (by omega)
    rw [Nat.cast_zero] at h0
    refine ⟨[a.getD 0 0], ?_, by simp⟩
    simp only [permute, if_pos hlr, h0, Option.bind_eq_bind, Option.some_bind]
  | succ n ih =>
    intro fuel l r a out hr hlen hfuel
    obtain ⟨f, rfl⟩ : ∃ f, fuel = f + 1 := ⟨fuel - 1, by omega⟩
    have hlr : ¬ ((l : Int) = (r : Int)) := by omega
    have hk : ((r : Int) - (l : Int) + 1).toNat = n + 2 := by omega
    have hcast : ((l : Int) + 1) = ((l + 1 : Nat) : Int) := by push_cast; rfl
    obtain ⟨lines, hrun, hcount⟩ := permute_loop_spec
      (fun a1 out1 => permute f a1 ((l : Int) + 1) (r : Int) out1) a.length
      (n + 1).factorial l
      (fun a1 out1 ha1 => by
        rw [hcast]
        exact ih f (l + 1) r a1 out1 (by omega) (by omega) (by omega))
      (n + 2) l a out rfl (by omega) (by omega)
    refine ⟨lines, ?_, ?_⟩
    · simp only [permute, if_neg hlr, hk]
      exact hrun
    · rw [hcount, Nat.factorial_succ (n + 1)]

/-- C19: for an array `a` and indices `0 ≤ l ≤ r < length(a)`, `permute(a, l, r)`
    returns as soon as the recursion may go `r - l + 1` deep, prints exactly
    `(r - l + 1)!` lines, and leaves the array with the contents it had on
    entry. -/
theorem permute_restores_array_and_prints_factorial (a : List Int) (l r fuel : Nat)
    (hlr : l ≤ r) (hr : r < a.length) (hfuel : r - l + 1 ≤ fuel) :
    ∃ lines, permute fuel a (l : Int) (r : Int) [] = some (a, lines) ∧
      lines.length = (r - l + 1).factorial := by
  obtain ⟨lines, h1, h2⟩ := permute_spec (r - l) fuel l r a [] (by omega) hr hfuel
  exact ⟨lines, by simpa using h1, h2⟩

/-- Witness for C19: the call `permute(array, 0, 3)` of `shuffle` (lines
    221-222) on `{1, 2, 3, 4}`. -/
theorem permute_restores_array_and_prints_factorial_witness :
    ∃ lines, permute 4 [1, 2, 3, 4] ((0 : Nat) : Int) ((3 : Nat) : Int) []
        = some ([1, 2, 3, 4], lines) ∧
      lines.length = (3 - 0 + 1).factorial :=
  permute_restores_array_and_prints_factorial [1, 2, 3, 4] 0 3 4 (by decide) (by decide)
    (by decide)
/-! ### The successor generator: single moves -/

/-- Whenever `generate_successor` returns a state from a well-formed
    allocation, the state is the input or the input after a single move. -/
theorem generate_successor_single_move (s : State) (d : InputData) (hs : catalog_shape d)
    (hwf : well_formed_allocation s d) (r : State)
    (hr : generate_successor s d = some r) :
    r = s ∨ single_move d s r := by
  have hn := hs.1
  have h1 : s.num_of_companies = (s.selected_bids_from_companies.length : Int) := by
    have := hwf.1; have := hwf.2.2.1; omega
  have h2 : s.num_of_coal_blocks = (s.allocated_coal_blocks.length : Int) := by
    have := hwf.2.1; have := hwf.2.2.2.1; omega
  unfold generate_successor at hr
  rw [create_copy_state_eq s h1 h2] at hr
  simp only [Option.bind_eq_bind, Option.some_bind] at hr
  cases hout : generate_successor_outer s d d.num_of_companies.toNat 0 (s, 0) with
  | none => rw [hout] at hr; exact absurd hr (by simp)
  | some acc1 =>
    rw [hout] at hr
    simp only [Option.some_bind] at hr
    rw [← Option.some.inj hr]
    refine generate_successor_outer_rule s d
      (fun acc => acc.1 = s ∨ single_move d s acc.1) _ _ _ _ hout (Or.inl rfl) ?_
    intro i1 n j1 cur ns c h hi0 hi1 hcnt hj0 hj1 hcur hne ht _ hc
    obtain ⟨i, rfl⟩ := Int.eq_ofNat_of_zero_le hi0
    have hin : i < d.bid_data.length := by
      rw [hn, Int.toNat_ofNat] at hi1; omega
    have hi : i < s.selected_bids_from_companies.length := by
      have := hwf.2.2.1; omega
    rw [catalog_shape_count d hs i hin] at hcnt
    have hnn := Option.some.inj hcnt
    have hj : j1 = no_bid ∨ (0 ≤ j1 ∧ j1 < ((bids_of d i).length : Int)) := by
      unfold no_bid; omega
    rw [rd_getD _ i no_bid hi] at hcur
    have hcur1 := Option.some.inj hcur
    have hwfn := trial_kept_well_formed s d hs hwf i j1 ns hin hj ht
    obtain ⟨_, n1, n2, n3, _⟩ := trial_kept_spec s d hs i j1 ns h1 h2 hi hin
      (hwf.2.2.2.2 i (List.mem_range.mpr hi)) hj ht
    have hc1 : create_copy_state ns = some ns :=
      create_copy_state_eq ns (by have := hwfn.1; have := hwfn.2.2.1; omega)
        (by have := hwfn.2.1; have := hwfn.2.2.2.1; omega)
    rw [hc1] at hc
    rw [← Option.some.inj hc]
    exact Or.inr ⟨i, j1, hi, hj, by rw [hcur1]; exact hne, n3, n1, n2⟩

/-- Scenario B meets the hypotheses of `generate_successor_single_move`. -/
theorem generate_successor_single_move_witness :
    ({ num_of_companies := 2, num_of_coal_blocks := 2,
       selected_bids_from_companies := [-1, 0], allocated_coal_blocks := [0, 1] } : State)
        = scenario_B_state ∨
    single_move scenario_B_catalog scenario_B_state
      { num_of_companies := 2, num_of_coal_blocks := 2,
        selected_bids_from_companies := [-1, 0], allocated_coal_blocks := [0, 1] } :=
  generate_successor_single_move scenario_B_state scenario_B_catalog (by decide) (by decide)
    _ (by decide)

/-- Whenever `generate_successor` returns a state from a well-formed
    allocation in which a company without bids holds `no_bid`, that company
    still holds `no_bid` in the returned state. -/
theorem generate_successor_keeps_zero_bid_company (s : State) (d : InputData)
    (hs : catalog_shape d) (hwf : well_formed_allocation s d) (i : Nat)
    (hz : bids_of d i = [])
    (hsel : s.selected_bids_from_companies.getD i no_bid = no_bid) (r : State)
    (hr : generate_successor s d = some r) :
    r.selected_bids_from_companies.getD i no_bid = no_bid := by
  rcases generate_successor_single_move s d hs hwf r hr with h | ⟨i1, j, hi1, hj, hne, hset, _⟩
  · rw [h]; exact hsel
  · rw [hset]
    by_cases he : i1 = i
    · subst he
      rw [hz] at hj
      rcases hj with hj | ⟨hj0, hj1⟩
      · rw [hsel] at hne; exact absurd hj hne
      · simp at hj1; omega
    · rw [getD_set_ne _ _ _ _ _ he]; exact hsel

/-- The allocation of `zero_bid_catalog` in which company 1 holds its bid meets
    the hypotheses of `generate_successor_keeps_zero_bid_company` for
    company 2. -/
theorem generate_successor_keeps_zero_bid_company_witness :
    zero_bid_state.selected_bids_from_companies.getD 1 no_bid = no_bid :=
  generate_successor_keeps_zero_bid_company zero_bid_state zero_bid_catalog (by decide)
    (by decide) 1 (by decide) (by decide) zero_bid_state (by decide)
/-! ### Out-of-range accesses on well-formed inputs -/

/-- C12 (the code departs from the claim): `two_unit_catalog` is well-formed,
    its record `[7, 1, 2]` has the recorded dimension 3 = 2 units + 1.
    `find_initial_state` passes that dimension as `bid_length`, so
    `check_bid_collision` reads `bid[3]`, outside the record: the error branch
    is reached and no state is returned. -/
theorem find_initial_state_reads_past_record :
    well_formed_catalog two_unit_catalog ∧
    bid_entry two_unit_catalog 0 0 2 = some 2 ∧
    bid_entry two_unit_catalog 0 0 3 = none ∧
    bid_dim two_unit_catalog 0 0 = some 3 ∧
    check_bid_collision [0, 0] [7, 1, 2] 2 = some (1, [0, 0]) ∧
    check_bid_collision [0, 0] [7, 1, 2] 3 = none ∧
    find_initial_state two_unit_catalog = none := by
  decide

/-- C13 (the code departs from the claim): two well-formed inputs with a
    conflict-free, consistent occupancy on which `generate_successor` leaves
    the arrays.  Over `zero_bid_catalog` with no bid selected, the release
    loop for company 1 evaluates `bid_data_dimensions[0][-1]`.  Over
    `two_bid_catalog` with bid 0 selected, the validity loop for candidate 1
    starts at entry 0, reads the value 7 as a unit identifier and accesses
    `allocated_coal_blocks[6]` of a 1-entry array. -/
theorem generate_successor_accesses_out_of_range :
    (well_formed_catalog zero_bid_catalog ∧
     well_formed_allocation zero_bid_empty_state zero_bid_catalog ∧
     conflict_free zero_bid_empty_state zero_bid_catalog ∧
     occupancy_consistent zero_bid_empty_state zero_bid_catalog ∧
     bid_dim zero_bid_catalog 0 (-1) = none ∧
     trial zero_bid_empty_state zero_bid_catalog 0 0 = none ∧
     generate_successor zero_bid_empty_state zero_bid_catalog = none) ∧
    (well_formed_catalog two_bid_catalog ∧
     well_formed_allocation two_bid_state two_bid_catalog ∧
     conflict_free two_bid_state two_bid_catalog ∧
     occupancy_consistent two_bid_state two_bid_catalog ∧
     bid_entry two_bid_catalog 0 1 0 = some 7 ∧
     rd ([0] : List Int) (7 - 1) = none ∧
     validity_loop two_bid_catalog 0 1 [0] 2 0 = none ∧
     trial two_bid_state two_bid_catalog 0 1 = none ∧
     generate_successor two_bid_state two_bid_catalog = none) := by
  decide

/-- Over `zero_bid_catalog`, in which company 2 has no bid,
    `find_initial_state` runs off the record of company 1 and returns no
    state, and so does `generate_successor` from the allocation in which no
    company holds a bid (release loop of company 1); from the allocation in
    which company 1 holds its bid it returns the input. -/
theorem zero_bid_company_not_assigned :
    well_formed_catalog zero_bid_catalog ∧
    bids_of zero_bid_catalog 1 = [] ∧
    find_initial_state zero_bid_catalog = none ∧
    well_formed_allocation zero_bid_empty_state zero_bid_catalog ∧
    zero_bid_empty_state.selected_bids_from_companies.getD 1 0 = no_bid ∧
    generate_successor zero_bid_empty_state zero_bid_catalog = none ∧
    generate_successor zero_bid_state zero_bid_catalog = some zero_bid_state := by
  decide

/-- C15 (the code departs from the claim): on the catalog of Scenario A
    `find_initial_state` reads `bid[2]` of the record `[5, 1]` and returns no
    state; the allocation the claim names (company 1 on bid 0, company 2 on
    `no_bid`, unit 1 occupied) scores 5, but `generate_successor` applied to
    it evaluates `bid_data_dimensions[1][-1]` and returns no state. -/
theorem scenario_A_returns_no_state :
    well_formed_catalog scenario_A_catalog ∧
    check_bid_collision [0] [5, 1] 2 = none ∧
    find_initial_state scenario_A_catalog = none ∧
    cost_heuristic scenario_A_state scenario_A_catalog = some 5 ∧
    bid_dim scenario_A_catalog 1 (-1) = none ∧
    generate_successor scenario_A_state scenario_A_catalog = none := by
  decide

/-- Over `overlap_catalog`, from the well-formed allocation in which company 1
    holds units 1 and 2 and company 2 holds none, the move of company 1 to
    `no_bid` yields a trial state, but the trial for company 2 evaluates
    `bid_data_dimensions[1][-1]` and `generate_successor` returns no state. -/
theorem single_move_not_returned_on_overlap_catalog :
    well_formed_catalog overlap_catalog ∧
    well_formed_allocation overlap_state overlap_catalog ∧
    trial overlap_state overlap_catalog 0 (-1)
      = some (some { num_of_companies := 2
                     num_of_coal_blocks := 2
                     selected_bids_from_companies := [-1, -1]
                     allocated_coal_blocks := [0, 0] }) ∧
    trial overlap_state overlap_catalog 1 0 = none ∧
    generate_successor overlap_state overlap_catalog = none := by
  decide
/-! ### The states the initial constructor returns -/

theorem find_initial_state_loop_no_bids (d : InputData) (hs : catalog_shape d) :
    ∀ (k i0 : Nat) (sel alloc : List Int), i0 + k = d.bid_data.length →
      sel.length = d.bid_data.length →
      (∀ t, i0 ≤ t → t < d.bid_data.length → bids_of d t = []) →
      ∃ sel1, find_initial_state_loop d k (i0 : Int) (sel, alloc) = some (sel1, alloc) ∧
        sel1.length = d.bid_data.length ∧
        (∀ t < i0, sel1.getD t no_bid = sel.getD t no_bid) ∧
        (∀ t, i0 ≤ t → t < d.bid_data.length → sel1.getD t no_bid = no_bid) := by
  intro k
  induction k with
  | zero =>
    intro i0 sel alloc hi hl _
    exact ⟨sel, rfl, hl, fun _ _ => rfl, fun t h1 h2 => by omega⟩
  | succ k ih =>
    intro i0 sel alloc hi hl hno
    have hcast : ((i0 : Int) + 1) = ((i0 + 1 : Nat) : Int) := by push_cast; rfl
    have hin : i0 < d.bid_data.length := by omega
    have he := hno i0 (le_refl _) hin
    have hsh := (hs.2.2.2.2 i0 (List.mem_range.mpr hin)).2.1
    have hp : rd d.bid_data (i0 : Int) = some none := by
      rw [rd_getD _ i0 none hin]
      cases hg : d.bid_data.getD i0 none with
      | none => rfl
      | some b =>
        rw [hg] at hsh
        simp [he] at hsh
    obtain ⟨sel1, hrun, hlen1, hpre, hpost⟩ := ih (i0 + 1) (sel.set i0 no_bid) alloc
      (by omega) (by simpa using hl) (fun t h1 h2 => hno t (by omega) h2)
    refine ⟨sel1, ?_, hlen1, ?_, ?_⟩
    · simp only [find_initial_state_loop, hp, Option.bind_eq_bind, Option.some_bind, hcast]
      rw [wr_natCast sel i0 _ (by omega)]
      exact hrun
    · intro t ht
      rw [hpre t (by omega), getD_set_ne _ _ _ _ _ (by omega)]
    · intro t h1 h2
      by_cases hti : t = i0
      · subst hti
        rw [hpre t (by omega), getD_set_eq _ _ _ _ (by omega)]
      · exact hpost t (by omega) h2

/-- What `find_initial_state` returns when it returns: no company of the
    catalog has a bid, every company holds `no_bid` and every unit is free. -/
theorem find_initial_state_returned (d : InputData) (hs : catalog_shape d) (s : State)
    (h : find_initial_state d = some s) :
    s.num_of_companies = d.num_of_companies ∧
    s.num_of_coal_blocks = d.num_of_coal_blocks ∧
    s.selected_bids_from_companies.length = d.bid_data.length ∧
    (∀ t, s.selected_bids_from_companies.getD t no_bid = no_bid) ∧
    s.allocated_coal_blocks = List.replicate d.num_of_coal_blocks.toNat 0 := by
  have hno : ∀ t, t < d.bid_data.length → bids_of d t = [] := by
    intro t ht
    by_contra hne
    rw [find_initial_state_overruns_record d hs ⟨t, ht, hne⟩] at h
    exact absurd h (by simp)
  have hn : d.num_of_companies.toNat = d.bid_data.length := by
    rw [hs.1, Int.toNat_ofNat]
  obtain ⟨sel1, hrun, hlen1, _, hpost⟩ := find_initial_state_loop_no_bids d hs
    d.bid_data.length 0 (List.replicate d.bid_data.length 0)
    (List.replicate d.num_of_coal_blocks.toNat 0) (by omega) (by simp)
    (fun t _ h2 => hno t h2)
  rw [Nat.cast_zero] at hrun
  unfold find_initial_state at h
  rw [hn, hrun] at h
  simp only [Option.bind_eq_bind, Option.some_bind] at h
  rw [← Option.some.inj h]
  refine ⟨rfl, rfl, hlen1, ?_, rfl⟩
  intro t
  by_cases ht : t < d.bid_data.length
  · exact hpost t (by omega) ht
  · exact List.getD_eq_default _ _ (by simp only; omega)

theorem selected_units_of_no_bid (s : State) (d : InputData) (i : Nat)
    (h : s.selected_bids_from_companies.getD i no_bid = no_bid) :
    selected_units s d i = [] := by
  unfold selected_units
  simp only [h]
  rw [if_pos (by decide)]

/-- A state returned by `find_initial_state` is a well-formed, conflict-free,
    occupancy-consistent allocation. -/
theorem find_initial_state_invariants (d : InputData) (hs : catalog_shape d) (s : State)
    (h : find_initial_state d = some s) :
    well_formed_allocation s d ∧ conflict_free s d ∧ occupancy_consistent s d := by
  obtain ⟨r1, r2, r3, r4, r5⟩ := find_initial_state_returned d hs s h
  have hn := hs.1
  have hN := hs.2.2.2.1
  refine ⟨⟨r1, r2, by omega, by rw [r5, List.length_replicate]; omega,
    fun i _ => Or.inl (r4 i)⟩, ?_, ?_⟩
  · intro i _ k _ _ u hu
    rw [selected_units_of_no_bid s d i (r4 i)] at hu
    exact absurd hu (by simp)
  · intro b hb
    have hb1 : b < d.num_of_coal_blocks.toNat := by
      have := List.mem_range.mp hb
      rw [r5, List.length_replicate] at this
      exact this
    have h0 : s.allocated_coal_blocks.getD b 0 = 0 := by
      rw [r5]
      simp [List.getD, List.getElem?_replicate, hb1]
    rw [h0]
    refine ⟨Or.inr rfl, fun hc => absurd hc (by decide), ?_⟩
    rintro ⟨i, _, hmem⟩
    rw [selected_units_of_no_bid s d i (r4 i)] at hmem
    exact absurd hmem (by simp)
/-! ### The invariants of the produced allocations -/

/-- Whenever `generate_successor` returns a state from a well-formed
    allocation, the state is a well-formed allocation. -/
theorem generate_successor_well_formed (s : State) (d : InputData) (hs : catalog_shape d)
    (hwf : well_formed_allocation s d) (r : State)
    (hr : generate_successor s d = some r) : well_formed_allocation r d := by
  have hn := hs.1
  have h1 : s.num_of_companies = (s.selected_bids_from_companies.length : Int) := by
    have := hwf.1; have := hwf.2.2.1; omega
  have h2 : s.num_of_coal_blocks = (s.allocated_coal_blocks.length : Int) := by
    have := hwf.2.1; have := hwf.2.2.2.1; omega
  unfold generate_successor at hr
  rw [create_copy_state_eq s h1 h2] at hr
  simp only [Option.bind_eq_bind, Option.some_bind] at hr
  cases hout : generate_successor_outer s d d.num_of_companies.toNat 0 (s, 0) with
  | none => rw [hout] at hr; exact absurd hr (by simp)
  | some acc1 =>
    rw [hout] at hr
    simp only [Option.some_bind] at hr
    rw [← Option.some.inj hr]
    refine generate_successor_outer_rule s d
      (fun acc => well_formed_allocation acc.1 d) _ _ _ _ hout hwf ?_
    intro i1 n j1 cur ns c h hi0 hi1 hcnt hj0 hj1 _ _ ht _ hc
    obtain ⟨i, rfl⟩ := Int.eq_ofNat_of_zero_le hi0
    have hin : i < d.bid_data.length := by
      rw [hn, Int.toNat_ofNat] at hi1; omega
    rw [catalog_shape_count d hs i hin] at hcnt
    have hnn := Option.some.inj hcnt
    have hj : j1 = no_bid ∨ (0 ≤ j1 ∧ j1 < ((bids_of d i).length : Int)) := by
      unfold no_bid; omega
    have hwfn := trial_kept_well_formed s d hs hwf i j1 ns hin hj ht
    have hc1 : create_copy_state ns = some ns :=
      create_copy_state_eq ns (by have := hwfn.1; have := hwfn.2.2.1; omega)
        (by have := hwfn.2.1; have := hwfn.2.2.2.1; omega)
    rw [hc1] at hc
    rw [← Option.some.inj hc]
    exact hwfn

/-- Whenever `generate_successor` returns a state other than its input, one
    company moved and the occupancy is that of the input after the move. -/
theorem generate_successor_moved_occupancy (s : State) (d : InputData)
    (hs : catalog_shape d) (hwf : well_formed_allocation s d) (r : State)
    (hr : generate_successor s d = some r) :
    r = s ∨ ∃ i : Nat, ∃ j : Int, i < s.selected_bids_from_companies.length ∧
      r.selected_bids_from_companies = s.selected_bids_from_companies.set i j ∧
      occupancy_after_move d s r i j := by
  have hn := hs.1
  have h1 : s.num_of_companies = (s.selected_bids_from_companies.length : Int) := by
    have := hwf.1; have := hwf.2.2.1; omega
  have h2 : s.num_of_coal_blocks = (s.allocated_coal_blocks.length : Int) := by
    have := hwf.2.1; have := hwf.2.2.2.1; omega
  unfold generate_successor at hr
  rw [create_copy_state_eq s h1 h2] at hr
  simp only [Option.bind_eq_bind, Option.some_bind] at hr
  cases hout : generate_successor_outer s d d.num_of_companies.toNat 0 (s, 0) with
  | none => rw [hout] at hr; exact absurd hr (by simp)
  | some acc1 =>
    rw [hout] at hr
    simp only [Option.some_bind] at hr
    rw [← Option.some.inj hr]
    refine generate_successor_outer_rule s d
      (fun acc => acc.1 = s ∨ ∃ i : Nat, ∃ j : Int,
        i < s.selected_bids_from_companies.length ∧
        acc.1.selected_bids_from_companies = s.selected_bids_from_companies.set i j ∧
        occupancy_after_move d s acc.1 i j) _ _ _ _ hout (Or.inl rfl) ?_
    intro i1 n j1 cur ns c h hi0 hi1 hcnt hj0 hj1 _ _ ht _ hc
    obtain ⟨i, rfl⟩ := Int.eq_ofNat_of_zero_le hi0
    have hin : i < d.bid_data.length := by
      rw [hn, Int.toNat_ofNat] at hi1; omega
    have hi : i < s.selected_bids_from_companies.length := by
      have := hwf.2.2.1; omega
    rw [catalog_shape_count d hs i hin] at hcnt
    have hnn := Option.some.inj hcnt
    have hj : j1 = no_bid ∨ (0 ≤ j1 ∧ j1 < ((bids_of d i).length : Int)) := by
      unfold no_bid; omega
    have hwfn := trial_kept_well_formed s d hs hwf i j1 ns hin hj ht
    obtain ⟨_, _, _, n3, a1, _, _, hv1, _, _, hv2⟩ := trial_kept_spec s d hs i j1 ns h1 h2 hi hin
      (hwf.2.2.2.2 i (List.mem_range.mpr hi)) hj ht
    have hc1 : create_copy_state ns = some ns :=
      create_copy_state_eq ns (by have := hwfn.1; have := hwfn.2.2.1; omega)
        (by have := hwfn.2.1; have := hwfn.2.2.2.1; omega)
    rw [hc1] at hc
    rw [← Option.some.inj hc]
    refine Or.inr ⟨i, j1, hi, n3, ?_⟩
    intro b _
    rw [hv2 b, hv1 b]

theorem successor_steps_keep_zero_bid_company (d : InputData) (hs : catalog_shape d)
    (i : Nat) (hz : bids_of d i = []) :
    ∀ (k : Nat) (s r : State), well_formed_allocation s d →
      s.selected_bids_from_companies.getD i no_bid = no_bid →
      successor_steps d k s = some r →
      r.selected_bids_from_companies.getD i no_bid = no_bid := by
  intro k
  induction k with
  | zero =>
    intro s r _ hsel hrun
    simp only [successor_steps] at hrun
    rw [← Option.some.inj hrun]; exact hsel
  | succ k ih =>
    intro s r hwf hsel hrun
    simp only [successor_steps, Option.bind_eq_bind] at hrun
    cases hg : generate_successor s d with
    | none => rw [hg] at hrun; exact absurd hrun (by simp)
    | some next =>
      rw [hg] at hrun
      simp only [Option.some_bind] at hrun
      exact ih next r (generate_successor_well_formed s d hs hwf next hg)
        (generate_successor_keeps_zero_bid_company s d hs hwf i hz hsel next hg) hrun

end HillClimb
